import Mathlib

/-!
# Saltdig — shallow embedding and verification of core modules

This file embeds, as executable Lean definitions, the parts of the Saltdig
source that the verified properties are about:

* the spec-loop economic layer (`src/lib/spec-loop.ts`):
  `createSpecDeposit`, `consumeSpecDeposit`, `freezeSpec`,
  `calculateChangeImpact`;
* the service-order PATCH handler (orders route, actions
  start / deliver / accept / dispute);
* the milestone controller (`startMilestone`, `approveMilestone` from the
  milestone library);
* the USDC auto-release reconciler (`/api/cron/escrow-release` GET);
* the competition finalizer (`finalizeCompetition`).

Database rows become Lean structures; the mutable store becomes an explicit
state value threaded through the operations; fallible code returns
`Except`.  Monetary JavaScript numbers are modelled as `ℚ` (exact
arithmetic standing in for IEEE doubles), string-encoded prices by their
parsed numeric value, and wall-clock timestamps by explicit parameters.
-/

namespace Saltdig

/-- An agent row: only the fields the verified operations touch. -/
structure Agent where
  id : String
  nacl_balance : ℚ
deriving Repr, DecidableEq

/-- A Salt ledger journal row (`nacl_transactions`): `none` on a side means
the system. -/
structure LedgerEntry where
  fromAgent : Option String
  toAgent : Option String
  amount : ℚ
  kind : String
  description : String
deriving Repr, DecidableEq

/-- A market listing row; `price` models the parsed numeric value of the
stored decimal price string (the source applies `parseFloat` wherever it
uses it numerically). -/
structure MarketListing where
  id : String
  agent_id : String
  status : String
  currency : String
  price : ℚ
  usdc_amount : Option ℚ
  completed_count : Nat
deriving Repr, DecidableEq

/-- A service order row. -/
structure ServiceOrder where
  id : String
  listing_id : String
  buyer_id : String
  seller_id : String
  listing_title : String
  price : ℚ
  status : String
  response : Option String
  delivered_at : Option String
  completed_at : Option String
deriving Repr, DecidableEq

/-- A spec deposit row (`spec_deposits`). -/
structure SpecDeposit where
  id : String
  listing_id : String
  agent_id : String
  amount : ℚ
  currency : String
  consumed : ℚ
  status : String
  created_at : String
  frozen_at : Option String
deriving Repr, DecidableEq

/-- A milestone row. -/
structure Milestone where
  id : String
  listing_id : String
  title : String
  budget_percentage : ℚ
  order_index : Nat
  status : String
  agent_id : Option String
  started_at : Option String
  submitted_at : Option String
  approved_at : Option String
deriving Repr, DecidableEq

/-- A milestone submission row. -/
structure MilestoneSubmission where
  id : String
  milestone_id : String
  agent_id : String
  status : String
  feedback : Option String
  reviewed_at : Option String
deriving Repr, DecidableEq

/-- The persistent store visible to the modelled operations. -/
structure DB where
  agents : List Agent
  listings : List MarketListing
  orders : List ServiceOrder
  deposits : List SpecDeposit
  milestones : List Milestone
  submissions : List MilestoneSubmission
  journal : List LedgerEntry
deriving Repr, DecidableEq

/-- Lookup `db.getAgentById`. -/
def getAgentById (agentId : String) (st : DB) : Option Agent :=
  st.agents.find? (fun a => a.id = agentId)

/-- Lookup `db.getMarketListing`. -/
def getMarketListing (listingId : String) (st : DB) : Option MarketListing :=
  st.listings.find? (fun l => l.id = listingId)

/-- Lookup `db.getActiveSpecDeposit`: the active deposit of a listing, if any. -/
def getActiveSpecDeposit (listingId : String) (st : DB) : Option SpecDeposit :=
  st.deposits.find? (fun d => d.listing_id = listingId ∧ d.status = "active")

/-- Write `db.updateAgent` restricted to the `nacl_balance` column. -/
def updateAgentBalance (agentId : String) (newBalance : ℚ) (st : DB) : DB :=
  { st with agents :=
      st.agents.map (fun a =>
        if a.id = agentId then { a with nacl_balance := newBalance } else a) }

/-- Write `db.updateMarketListing` applied to a row by id. -/
def updateMarketListing (listingId : String) (f : MarketListing → MarketListing)
    (st : DB) : DB :=
  { st with listings :=
      st.listings.map (fun l => if l.id = listingId then f l else l) }

/-- Write `db.updateSpecDeposit` applied to a row by id. -/
def updateSpecDeposit (depositId : String) (f : SpecDeposit → SpecDeposit)
    (st : DB) : DB :=
  { st with deposits :=
      st.deposits.map (fun d => if d.id = depositId then f d else d) }

/-- Write `db.updateServiceOrder` applied to a row by id. -/
def updateServiceOrder (orderId : String) (f : ServiceOrder → ServiceOrder)
    (st : DB) : DB :=
  { st with orders :=
      st.orders.map (fun o => if o.id = orderId then f o else o) }

/-- Modelled from the spec: the store primitive `createNaclTransaction`
(declared in `db-interface.ts`, concrete implementation not under `src/`)
records one journal row; it is a raw append used by callers that move the
funds themselves. -/
def createNaclTransaction (fromAgent toAgent : Option String) (amount : ℚ)
    (kind description : String) (st : DB) : DB :=
  { st with journal := st.journal ++
      [{ fromAgent := fromAgent, toAgent := toAgent, amount := amount,
         kind := kind, description := description }] }

/-- Modelled from the spec: the store primitive `transferNacl` (declared in
`db-interface.ts`, concrete implementation not under `src/`).  Per §4.A it
is an atomic transfer that rejects `amount ≤ 0`, `amount > MAX_TRANSFER`
(10 000), self-transfers, and a non-null debtor that would go negative;
`from = null` is issuance and `to = null` is burn; it appends one journal
row. -/
def transferNacl (fromAgent toAgent : Option String) (amount : ℚ)
    (kind description : String) (st : DB) : Except String DB :=
  if amount ≤ 0 then .error "InvalidArgument: amount must be positive"
  else if 10000 < amount then .error "InvalidArgument: amount exceeds MAX_TRANSFER"
  else if fromAgent = toAgent then .error "InvalidArgument: self transfer"
  else
    let debited : Except String DB :=
      match fromAgent with
      | none => .ok st
      | some f =>
        match getAgentById f st with
        | none => .error "NotFound: agent"
        | some a =>
          if a.nacl_balance < amount then .error "InsufficientFunds"
          else .ok (updateAgentBalance f (a.nacl_balance - amount) st)
    match debited with
    | .error e => .error e
    | .ok st1 =>
      let credited : Except String DB :=
        match toAgent with
        | none => .ok st1
        | some t =>
          match getAgentById t st1 with
          | none => .error "NotFound: agent"
          | some a => .ok (updateAgentBalance t (a.nacl_balance + amount) st1)
      match credited with
      | .error e => .error e
      | .ok st2 =>
        .ok (createNaclTransaction fromAgent toAgent amount kind description st2)

/-! ## Spec loop (`src/lib/spec-loop.ts`) -/

/-- The operation `createSpecDeposit` (spec-loop.ts): owner-only, listing must be active
or clarifying, debits the agent's NaCl balance, creates an `active`
deposit, moves the listing to `clarifying`.  `newId` stands for the
store-generated row id and `now` for the creation timestamp. -/
def createSpecDeposit (agentId listingId : String) (amount : ℚ)
    (currency : String) (newId now : String) (st : DB) :
    Except String (DB × SpecDeposit) :=
  match getMarketListing listingId st with
  | none => .error "Listing not found"
  | some listing =>
    if listing.agent_id ≠ agentId then
      .error "Only the listing owner can create a spec deposit"
    else if listing.status ≠ "active" ∧ listing.status ≠ "clarifying" then
      .error "Listing must be active or clarifying to create spec deposit"
    else
      match getAgentById agentId st with
      | none => .error "Agent not found"
      | some agent =>
        if currency = "NACL" then
          if agent.nacl_balance < amount then .error "Insufficient NACL balance"
          else
            let st1 := updateAgentBalance agentId (agent.nacl_balance - amount) st
            let deposit : SpecDeposit :=
              { id := newId, listing_id := listingId, agent_id := agentId,
                amount := amount, currency := currency, consumed := 0,
                status := "active", created_at := now, frozen_at := none }
            let st2 := { st1 with deposits := st1.deposits ++ [deposit] }
            let st3 := updateMarketListing listingId
              (fun l => { l with status := "clarifying" }) st2
            .ok (st3, deposit)
        else .error "USDC deposits not yet implemented"

/-- The operation `consumeSpecDeposit` (spec-loop.ts): only guards `amount > remaining`,
bumps the `consumed` counter, flips status to `consumed` once
`consumed ≥ amount`, and records a `spec_review_payment` journal row. -/
def consumeSpecDeposit (listingId reason : String) (amount : ℚ) (st : DB) :
    Except String (DB × SpecDeposit) :=
  match getActiveSpecDeposit listingId st with
  | none => .error "No active spec deposit found for this listing"
  | some deposit =>
    let remaining := deposit.amount - deposit.consumed
    if remaining < amount then .error "Insufficient deposit"
    else
      let newConsumed := deposit.consumed + amount
      let status := if deposit.amount ≤ newConsumed then "consumed" else "active"
      let st1 := updateSpecDeposit deposit.id
        (fun d => { d with consumed := newConsumed, status := status }) st
      let st2 := createNaclTransaction (some deposit.agent_id) none amount
        "spec_review_payment" reason st1
      .ok (st2, { deposit with consumed := newConsumed, status := status })

/-- The operation `freezeSpec` (spec-loop.ts): owner-only on a `clarifying` listing with
an active deposit; marks the deposit `frozen`, moves the listing to
`frozen`, and credits `amount − consumed` back to the depositor (with a
`spec_freeze_credit` journal row) when that is positive. -/
def freezeSpec (listingId agentId now : String) (st : DB) :
    Except String (DB × SpecDeposit × ℚ) :=
  match getMarketListing listingId st with
  | none => .error "Listing not found"
  | some listing =>
    if listing.agent_id ≠ agentId then
      .error "Only the listing owner can freeze the spec"
    else if listing.status ≠ "clarifying" then
      .error "Listing must be in clarifying state to freeze"
    else
      match getActiveSpecDeposit listingId st with
      | none => .error "No active spec deposit found"
      | some deposit =>
        let creditAmount := deposit.amount - deposit.consumed
        let st1 := updateSpecDeposit deposit.id
          (fun d => { d with status := "frozen", frozen_at := some now }) st
        let st2 := updateMarketListing listingId
          (fun l => { l with status := "frozen" }) st1
        let st3 :=
          if 0 < creditAmount then
            match getAgentById agentId st2 with
            | none => st2
            | some agent =>
              createNaclTransaction none (some agentId) creditAmount
                "spec_freeze_credit"
                ("Remaining spec deposit returned on freeze for listing " ++ listingId)
                (updateAgentBalance agentId (agent.nacl_balance + creditAmount) st2)
          else st2
        .ok (st3, { deposit with status := "frozen", frozen_at := some now },
              creditAmount)

/-- The NaCl balance of an agent in a store state (0 when absent), used to
state balance-change laws. -/
def naclBalance (agentId : String) (st : DB) : ℚ :=
  match getAgentById agentId st with
  | some a => a.nacl_balance
  | none => 0

/-! ## Service-order PATCH handler (orders `[id]` route) -/

/-- The service-order PATCH handler: `actorId` is the authenticated agent,
`action` one of start / deliver / accept / dispute, `response` the optional
delivery artifact, `now` the current timestamp.  Errors carry the HTTP
status code the route answers with. -/
def patchServiceOrder (actorId orderId action : String)
    (response : Option String) (now : String) (st : DB) :
    Except (Nat × String) DB :=
  match st.orders.find? (fun o => o.id = orderId) with
  | none => .error (404, "Order not found")
  | some order =>
    if action = "deliver" then
      if order.seller_id ≠ actorId then .error (403, "Only the seller can deliver")
      else if order.status ≠ "pending" ∧ order.status ≠ "in_progress" then
        .error (400, "Order cannot be delivered in current status")
      else
        match response with
        | none => .error (400, "response is required for delivery")
        | some resp =>
          .ok (updateServiceOrder orderId
            (fun o => { o with status := "delivered", response := some resp,
                               delivered_at := some now }) st)
    else if action = "accept" then
      if order.buyer_id ≠ actorId then .error (403, "Only the buyer can accept")
      else if order.status ≠ "delivered" then
        .error (400, "Can only accept delivered orders")
      else
        match transferNacl none (some order.seller_id) order.price
            "service_payment" ("Service completed: " ++ order.listing_title) st with
        | .error e => .error (500, e)
        | .ok st1 =>
          let st2 := updateServiceOrder orderId
            (fun o => { o with status := "accepted", completed_at := some now }) st1
          match getMarketListing order.listing_id st2 with
          | none => .ok st2
          | some marketListing =>
            .ok (updateMarketListing order.listing_id
              (fun l => { l with completed_count := marketListing.completed_count + 1 })
              st2)
    else if action = "start" then
      if order.seller_id ≠ actorId then .error (403, "Only the seller can start")
      else if order.status ≠ "pending" then
        .error (400, "Can only start pending orders")
      else .ok (updateServiceOrder orderId
        (fun o => { o with status := "in_progress" }) st)
    else if action = "dispute" then
      if order.buyer_id ≠ actorId ∧ order.seller_id ≠ actorId then
        .error (403, "Only buyer or seller can dispute")
      else .ok (updateServiceOrder orderId
        (fun o => { o with status := "disputed" }) st)
    else .error (400, "action must be one of: start, deliver, accept, dispute")

/-! ## Milestone controller (milestone library) -/

/-- Write `db.updateMilestone` applied to a row by id. -/
def updateMilestone (milestoneId : String) (f : Milestone → Milestone)
    (st : DB) : DB :=
  { st with milestones :=
      st.milestones.map (fun m => if m.id = milestoneId then f m else m) }

/-- Write `db.updateMilestoneSubmission` applied to a row by id. -/
def updateMilestoneSubmission (submissionId : String)
    (f : MilestoneSubmission → MilestoneSubmission) (st : DB) : DB :=
  { st with submissions :=
      st.submissions.map (fun s => if s.id = submissionId then f s else s) }

/-- The in-order walk of `startMilestone` over the sorted milestone list:
throw on the first strictly-lower-indexed milestone that is not approved,
stop at the target. -/
def checkPreviousMilestones (target : Milestone) : List Milestone → Except String Unit
  | [] => .ok ()
  | m :: rest =>
    if m.order_index < target.order_index ∧ m.status ≠ "approved" then
      .error ("Previous milestone " ++ m.title ++ " must be completed first")
    else if m.id = target.id then .ok ()
    else checkPreviousMilestones target rest

/-- The operation `startMilestone`: the milestone must be `pending` and every milestone
of the listing with a lower `order_index` approved; assigns the agent and
moves the milestone to `in_progress`.  (The source's stable
`sort((a, b) => a.order_index - b.order_index)` is `List.insertionSort`.) -/
def startMilestone (milestoneId agentId now : String) (st : DB) :
    Except String DB :=
  match st.milestones.find? (fun m => m.id = milestoneId) with
  | none => .error "Milestone not found"
  | some milestone =>
    if milestone.status ≠ "pending" then
      .error ("Milestone is " ++ milestone.status ++ ", cannot start")
    else
      let allMilestones := st.milestones.filter
        (fun m => m.listing_id = milestone.listing_id)
      let sortedMilestones := List.insertionSort
        (fun a b => a.order_index ≤ b.order_index) allMilestones
      match checkPreviousMilestones milestone sortedMilestones with
      | .error e => .error e
      | .ok _ =>
        .ok (updateMilestone milestoneId
          (fun m => { m with status := "in_progress", agent_id := some agentId,
                             started_at := some now }) st)

/-- The operation `approveMilestone`: poster-only on a `submitted` milestone; computes
`release = listing.price × budget_percentage / 100`, marks the milestone
(and its first submission) approved, and for Salt listings transfers the
release from the system to the assignee. -/
def approveMilestone (milestoneId posterId now : String) (st : DB) :
    Except String (DB × ℚ) :=
  match st.milestones.find? (fun m => m.id = milestoneId) with
  | none => .error "Milestone not found"
  | some milestone =>
    if milestone.status ≠ "submitted" then
      .error ("Milestone is " ++ milestone.status ++ ", cannot approve")
    else
      match getMarketListing milestone.listing_id st with
      | none => .error "Listing not found"
      | some listing =>
        if listing.agent_id ≠ posterId then
          .error "Only the listing poster can approve milestones"
        else
          let releaseAmount := listing.price * (milestone.budget_percentage / 100)
          let st1 := updateMilestone milestoneId
            (fun m => { m with status := "approved", approved_at := some now }) st
          let st2 :=
            match (st1.submissions.filter
                (fun s => s.milestone_id = milestoneId)).head? with
            | none => st1
            | some sub =>
              updateMilestoneSubmission sub.id
                (fun s => { s with status := "approved", reviewed_at := some now })
                st1
          match milestone.agent_id with
          | some workerId =>
            if listing.currency = "salt" then
              match transferNacl none (some workerId) releaseAmount
                  "milestone_payment"
                  ("Milestone payment: " ++ milestone.title) st2 with
              | .error e => .error e
              | .ok st3 => .ok (st3, releaseAmount)
            else .ok (st2, releaseAmount)
          | none => .ok (st2, releaseAmount)

/-! ## Auto-release reconciler (`/api/cron/escrow-release` GET) -/

/-- The on-chain bounty view returned by `EscrowClient.getBounty`. -/
structure OnChainBounty where
  poster : String
  worker : String
  amount : String
  workerStake : String
  deadline : Nat
  submittedAt : Nat
  status : Nat
  statusLabel : String
  bountyId : String
deriving Repr, DecidableEq

/-- A `usdc_transactions` row (fields the reconciler touches). -/
structure UsdcTxRecord where
  id : String
  listing_id : Option String
  bounty_hash : String
  poster_id : Option String
  worker_id : Option String
  amount : ℚ
  status : String
  tx_hash : Option String
  completed_at : Option String
deriving Repr, DecidableEq

/-- The reconciler's auto-release timeout: 72 hours in seconds. -/
def autoReleaseSeconds : Nat := 72 * 3600

/-- What the reconciler does to one selected record. -/
inductive ReconcileOutcome where
  | skipped
  | released (r : UsdcTxRecord)
  | failed (msg : String)
deriving Repr, DecidableEq

/-- One iteration of the reconciler loop over a selected record:
`getBounty` reads the chain, `autoRelease` is the on-chain release call
returning the confirmed transaction hash; `now` is unix seconds and
`nowIso` the same instant as stamped into `completed_at`. -/
def processSubmittedTx (getBounty : String → Except String OnChainBounty)
    (autoRelease : String → Except String String)
    (now : Nat) (nowIso : String) (tx : UsdcTxRecord) : ReconcileOutcome :=
  match getBounty tx.bounty_hash with
  | .error e => .failed (tx.bounty_hash ++ ": " ++ e)
  | .ok bounty =>
    if bounty.status ≠ 2 then .skipped
    else if bounty.submittedAt = 0 then .skipped
    else if now < bounty.submittedAt + autoReleaseSeconds then .skipped
    else
      match autoRelease tx.bounty_hash with
      | .error e => .failed (tx.bounty_hash ++ ": " ++ e)
      | .ok txHash =>
        .released { tx with status := "auto_released", tx_hash := some txHash,
                            completed_at := some nowIso }

/-- The whole reconciler run over the records selected at status
`submitted`: returns the post-state of each record in order, the released
count, and the collected per-bounty errors.  A failure on one record never
aborts the batch. -/
def runReconciler (getBounty : String → Except String OnChainBounty)
    (autoRelease : String → Except String String)
    (now : Nat) (nowIso : String) (pending : List UsdcTxRecord) :
    List UsdcTxRecord × Nat × List String :=
  pending.foldl (fun acc tx =>
    match processSubmittedTx getBounty autoRelease now nowIso tx with
    | .skipped => (acc.1 ++ [tx], acc.2.1, acc.2.2)
    | .released r => (acc.1 ++ [r], acc.2.1 + 1, acc.2.2)
    | .failed e => (acc.1 ++ [tx], acc.2.1, acc.2.2 ++ [e]))
    ([], 0, [])

/-! ## Competition finalizer (competition library) -/

/-- The `prize_config` JSON blob of a competition. -/
structure PrizeConfig where
  firstPlace : Option ℚ
  secondPlace : Option ℚ
  thirdPlace : Option ℚ
  minScore : Option ℚ
deriving Repr, DecidableEq

/-- A competition row (fields `finalizeCompetition` touches). -/
structure CompetitionRec where
  id : String
  listing_id : String
  prize_distribution : String
  prize_config : Option PrizeConfig
  status : String
  winner_id : Option String
  finalized_at : Option String
deriving Repr, DecidableEq

/-- A competition entry row. -/
structure CompetitionEntryRec where
  id : String
  competition_id : String
  agent_id : String
  score : Option ℚ
  rank : Option Nat
  status : String
  prize_amount : Option ℚ
  submitted_at : String
deriving Repr, DecidableEq

/-- JavaScript `v || d` on an optional number: `null`, missing and `0` all
fall back to the default. -/
def jsOr (v : Option ℚ) (d : ℚ) : ℚ :=
  match v with
  | some x => if x = 0 then d else x
  | none => d

/-- The read `entry.score || 0`. -/
def scoreOr0 (e : CompetitionEntryRec) : ℚ := e.score.getD 0

/-- The field `entry.prize_amount` read as a number (0 when unset). -/
def prizeOr0 (e : CompetitionEntryRec) : ℚ := e.prize_amount.getD 0

/-- The sum of `prize_amount` over a list of entries. -/
def sumPrize (es : List CompetitionEntryRec) : ℚ := (es.map prizeOr0).sum

/-- The scored entries of a competition, sorted by score descending
(the source's stable JS sort on `(b.score||0) − (a.score||0)`). -/
def scoredSorted (entries : List CompetitionEntryRec) : List CompetitionEntryRec :=
  List.insertionSort (fun a b => scoreOr0 b ≤ scoreOr0 a)
    (entries.filter (fun e => e.status = "scored" ∧ e.score ≠ none))

/-- The top-3 percentage list with the source's `|| 50 / || 30 / || 20`
defaults applied to `competition.prize_config`. -/
def top3Percentages (comp : CompetitionRec) : List ℚ :=
  let config := comp.prize_config.getD
    { firstPlace := none, secondPlace := none, thirdPlace := none, minScore := none }
  [jsOr config.firstPlace 50, jsOr config.secondPlace 30, jsOr config.thirdPlace 20]

/-- One `updateCompetitionEntry` write performed by the finalizer. -/
structure EntryAward where
  entryId : String
  agentId : String
  rank : Nat
  prize : ℚ
  newStatus : String
deriving Repr, DecidableEq

/-- JavaScript object assignment `obj[k] = v`: overwrite in place or append. -/
def objSet : List (String × ℚ) → String → ℚ → List (String × ℚ)
  | [], k, v => [(k, v)]
  | (k', v') :: rest, k, v =>
    if k' = k then (k, v) :: rest else (k', v') :: objSet rest k v

/-- Apply the finalizer's per-entry `updateCompetitionEntry` writes. -/
def applyEntryAwards (entries : List CompetitionEntryRec)
    (awards : List EntryAward) : List CompetitionEntryRec :=
  awards.foldl (fun es w =>
    es.map (fun e =>
      if e.id = w.entryId then
        { e with rank := some w.rank, prize_amount := some w.prize,
                 status := w.newStatus }
      else e)) entries

/-- The result of a successful `finalizeCompetition`. -/
structure FinalizeResult where
  postEntries : List CompetitionEntryRec
  postComp : CompetitionRec
  totalPrize : ℚ
  distribution : List (String × ℚ)
deriving Repr, DecidableEq

/-- The per-rank writes of the finalizer's distribution branch. -/
def finalizeAwards (comp : CompetitionRec) (totalPrize : ℚ)
    (scoredEntries : List CompetitionEntryRec) :
    Except String (List EntryAward) :=
  if comp.prize_distribution = "winner-take-all" then
    match scoredEntries.head? with
    | none => .ok []
    | some winner =>
      .ok [{ entryId := winner.id, agentId := winner.agent_id, rank := 1,
             prize := totalPrize, newStatus := "winner" }]
  else if comp.prize_distribution = "top-3" then
    let percentages := top3Percentages comp
    .ok (((scoredEntries.take 3).zip percentages).enum.map (fun iw =>
      { entryId := iw.2.1.id, agentId := iw.2.1.agent_id, rank := iw.1 + 1,
        prize := totalPrize * iw.2.2 / 100,
        newStatus := if iw.1 = 0 then "winner" else "scored" }))
  else if comp.prize_distribution = "proportional" then
    let minScore := jsOr ((comp.prize_config.map (fun c => c.minScore)).join) 0
    let qualifiedEntries := scoredEntries.filter (fun e => minScore ≤ scoreOr0 e)
    if qualifiedEntries.isEmpty then
      .error "No entries meet minimum score threshold"
    else
      let totalScore := (qualifiedEntries.map scoreOr0).sum
      .ok (qualifiedEntries.enum.map (fun ie =>
        { entryId := ie.2.id, agentId := ie.2.agent_id, rank := ie.1 + 1,
          prize := totalPrize * scoreOr0 ie.2 / totalScore,
          newStatus := if ie.1 = 0 then "winner" else "scored" }))
  else .ok []

/-- The operation `finalizeCompetition`: refuse when already finalized or no scored
entry; rank the scored entries by score descending; total prize is the
listing's USDC amount for USDC listings and the parsed price otherwise;
write rank / prize / status per the distribution strategy; mark the
competition finalized with the rank-1 agent as winner.  (Division by a
zero total score in the proportional branch produces NaN in the source;
theorems about that branch assume a non-zero total score.)  The Salt /
USDC payout loop over `distribution` is the downstream `distributePrize`
and is not part of this model. -/
def finalizeCompetition (comp : CompetitionRec) (listing : MarketListing)
    (entries : List CompetitionEntryRec) (now : String) :
    Except String FinalizeResult :=
  if comp.status = "finalized" then .error "Competition already finalized"
  else
    let scoredEntries := scoredSorted entries
    if scoredEntries.isEmpty then .error "No valid entries to finalize"
    else
      let totalPrize :=
        if listing.currency = "usdc" then listing.usdc_amount.getD 0
        else listing.price
      match finalizeAwards comp totalPrize scoredEntries with
      | .error e => .error e
      | .ok awards =>
        let distribution := awards.foldl
          (fun d w => objSet d w.agentId w.prize) []
        let postEntries := applyEntryAwards entries awards
        let winnerId := (awards.head?).map (fun w => w.agentId)
        let postComp := { comp with
          status := "finalized", winner_id := winnerId,
          finalized_at := some now }
        .ok { postEntries := postEntries, postComp := postComp,
              totalPrize := totalPrize, distribution := distribution }

/-! ## Change-impact analysis (`calculateChangeImpact`, spec-loop.ts) -/

/-- A node of the stored bounty DAG: `depends` lists the node's
dependencies, `cost` its optional numeric cost. -/
structure GraphNode where
  id : String
  status : String
  depends : List String
  cost : Option ℚ
deriving Repr, DecidableEq

/-- The parsed bounty graph (the YAML parsing of the source is the
external `js-yaml` collaborator; the model starts from its output). -/
structure BountyGraph where
  nodes : List GraphNode
deriving Repr, DecidableEq

/-- JavaScript `Set.add`: append, keeping first-insertion order. -/
def setAdd (s : List String) (a : String) : List String :=
  if a ∈ s then s else s ++ [a]

theorem mem_setAdd {s : List String} {a x : String} :
    x ∈ setAdd s a ↔ x ∈ s ∨ x = a := by
  by_cases ha : a ∈ s
  · simp only [setAdd, if_pos ha]
    constructor
    · exact Or.inl
    · rintro (h | rfl)
      · exact h
      · exact ha
  · simp [setAdd, if_neg ha]

theorem nodup_setAdd {s : List String} (h : s.Nodup) (a : String) :
    (setAdd s a).Nodup := by
  by_cases ha : a ∈ s
  · simpa [setAdd, if_pos ha] using h
  · simp [setAdd, if_neg ha, List.nodup_append, h, ha]

/-- Collect a list into a JS `Set` (ordered, first occurrence kept). -/
def setOf (l : List String) : List String := l.foldl setAdd []

theorem mem_foldl_setAdd (l : List String) (s : List String) (x : String) :
    x ∈ l.foldl setAdd s ↔ x ∈ s ∨ x ∈ l := by
  induction l generalizing s with
  | nil => simp
  | cons a t ih =>
    simp only [List.foldl_cons, ih, mem_setAdd, List.mem_cons]
    tauto

theorem mem_setOf {l : List String} {x : String} : x ∈ setOf l ↔ x ∈ l := by
  unfold setOf
  rw [mem_foldl_setAdd]
  simp

theorem nodup_foldl_setAdd (l : List String) (s : List String) (h : s.Nodup) :
    (l.foldl setAdd s).Nodup := by
  induction l generalizing s with
  | nil => simpa
  | cons a t ih => exact ih _ (nodup_setAdd h a)

theorem nodup_setOf (l : List String) : (setOf l).Nodup :=
  nodup_foldl_setAdd l [] List.nodup_nil

theorem foldl_setAdd_eq_append (l : List String) (s : List String)
    (h : (s ++ l).Nodup) : l.foldl setAdd s = s ++ l := by
  induction l generalizing s with
  | nil => simp
  | cons a t ih =>
    have ha : a ∉ s := by
      intro hmem
      rcases List.nodup_append.mp h with ⟨-, -, hdisj⟩
      exact hdisj hmem (by simp)
    have hstep : setAdd s a = s ++ [a] := by simp [setAdd, ha]
    have h2 : ((s ++ [a]) ++ t).Nodup := by simpa using h
    simp only [List.foldl_cons, hstep, ih (s ++ [a]) h2, List.append_assoc,
      List.singleton_append]

theorem setOf_eq_self {l : List String} (h : l.Nodup) : setOf l = l := by
  unfold setOf
  simpa using foldl_setAdd_eq_append l [] (by simpa)

/-- The reverse dependency map of the source: `dependents[d]` is the set
of ids of nodes listing `d` among their dependencies, in node order. -/
def dependents (nodes : List GraphNode) (d : String) : List String :=
  setOf ((nodes.filter (fun n => d ∈ n.depends)).map (fun n => n.id))

theorem dependents_nodup (nodes : List GraphNode) (d : String) :
    (dependents nodes d).Nodup := nodup_setOf _

theorem dependents_subset {nodes : List GraphNode} {d x : String}
    (h : x ∈ dependents nodes d) : x ∈ nodes.map (fun n => n.id) := by
  unfold dependents at h
  rw [mem_setOf] at h
  simp only [List.mem_map, List.mem_filter] at h
  rcases h with ⟨n, ⟨hn, -⟩, rfl⟩
  exact List.mem_map.mpr ⟨n, hn, rfl⟩

/-- The id universe of a graph, as a finset (used for termination). -/
def idSet (nodes : List GraphNode) : Finset String :=
  (nodes.map (fun n => n.id)).toFinset

/-- The source's BFS over the reverse dependency map.  The queue holds
`(id, depth)` pairs; a freshly visited node reached from depth 0 is
directly affected, any other transitively affected.  Returns
`(visited, directlyAffected, transitivelyAffected)` in insertion order. -/
def bfsLoop (nodes : List GraphNode) (queue : List (String × Nat))
    (visited direct trans : List String) :
    List String × List String × List String :=
  match queue with
  | [] => (visited, direct, trans)
  | (id, depth) :: rest =>
    let fresh := (dependents nodes id).filter (fun d => d ∉ visited)
    bfsLoop nodes (rest ++ fresh.map (fun d => (d, depth + 1)))
      (visited ++ fresh)
      (if depth = 0 then direct ++ fresh else direct)
      (if depth = 0 then trans else trans ++ fresh)
termination_by 2 * (idSet nodes \ visited.toFinset).card + queue.length
decreasing_by
  simp only [List.length_append, List.length_map]
  have hfresh_nodup : fresh.Nodup := (dependents_nodup nodes id).filter _
  have hsub : fresh.toFinset ⊆ idSet nodes \ visited.toFinset := by
    intro x hx
    rw [List.mem_toFinset] at hx
    have hx' := List.mem_filter.mp hx
    rcases hx' with ⟨hdep, hnv⟩
    refine Finset.mem_sdiff.mpr ⟨?_, ?_⟩
    · exact List.mem_toFinset.mpr (dependents_subset hdep)
    · rw [List.mem_toFinset]
      simpa using hnv
  have hunion : (visited ++ fresh).toFinset = visited.toFinset ∪ fresh.toFinset := by
    simp [List.toFinset_append]
  have hdiff : idSet nodes \ (visited ++ fresh).toFinset
      = (idSet nodes \ visited.toFinset) \ fresh.toFinset := by
    rw [hunion]
    ext x
    simp only [Finset.mem_sdiff, Finset.mem_union]
    tauto
  have hcard : (idSet nodes \ (visited ++ fresh).toFinset).card
      = (idSet nodes \ visited.toFinset).card - fresh.toFinset.card := by
    rw [hdiff, Finset.card_sdiff hsub]
  have hlen : fresh.toFinset.card = fresh.length :=
    List.toFinset_card_of_nodup hfresh_nodup
  have hle : fresh.toFinset.card ≤ (idSet nodes \ visited.toFinset).card :=
    Finset.card_le_card hsub
  rw [hlen] at hcard hle
  have hfl : fresh.length
      = (List.filter (fun d => decide (d ∉ visited)) (dependents nodes id)).length :=
    rfl
  rw [hcard]
  simp only [List.length_cons]
  omega

/-- The three risk levels of an impact analysis. -/
inductive RiskLevel where
  | low
  | medium
  | high
deriving Repr, DecidableEq

/-- The source's risk classification from the total affected count:
`low` for ≤ 2, `medium` for ≤ 5, `high` otherwise. -/
def riskOf (totalAffected : Nat) : RiskLevel :=
  if totalAffected ≤ 2 then .low
  else if totalAffected ≤ 5 then .medium
  else .high

/-- Risk levels as a chain, for monotonicity statements. -/
def riskOrd : RiskLevel → Nat
  | .low => 0
  | .medium => 1
  | .high => 2

/-- The result record of `calculateChangeImpact` (the presentational
`reasoning` string is omitted). -/
structure ImpactAnalysis where
  changed_nodes : List String
  directly_affected : List String
  transitively_affected : List String
  total_affected_count : Nat
  estimated_cost_increase : ℤ
  risk_level : RiskLevel
deriving Repr, DecidableEq

/-- The 20 % rework contribution of one affected node id: the first node
carrying the id, when its cost is set and truthy (non-zero). -/
def nodeCostShare (nodes : List GraphNode) (nodeId : String) : ℚ :=
  match nodes.find? (fun n => n.id = nodeId) with
  | none => 0
  | some n =>
    match n.cost with
    | none => 0
    | some c => if c = 0 then 0 else c * (1 / 5)

/-- The analysis `calculateChangeImpact` (spec-loop.ts): BFS from the changed node ids
over the reverse dependency map; depth-1 nodes are directly affected,
deeper ones transitively; the cost increase is
`ceil(Σ cost × 0.2)` over all affected nodes and the risk level is
classified from the total affected count. -/
def calculateChangeImpact (graph : BountyGraph) (changedNodeIds : List String) :
    ImpactAnalysis :=
  let start := changedNodeIds.map (fun i => (i, 0))
  let res := bfsLoop graph.nodes start (setOf changedNodeIds) [] []
  let directlyAffected := res.2.1
  let transitivelyAffected := res.2.2
  let affectedNodes := changedNodeIds ++ directlyAffected ++ transitivelyAffected
  let estimatedCostIncrease :=
    affectedNodes.foldl (fun acc nodeId => acc + nodeCostShare graph.nodes nodeId) 0
  let totalAffected := affectedNodes.length
  { changed_nodes := changedNodeIds,
    directly_affected := directlyAffected,
    transitively_affected := transitivelyAffected,
    total_affected_count := totalAffected,
    estimated_cost_increase := ⌈estimatedCostIncrease⌉,
    risk_level :=
      if totalAffected ≤ 2 then .low
      else if totalAffected ≤ 5 then .medium
      else .high }


/-! ## Store-access lemmas -/

theorem find?_update_agent (l : List Agent) (a : String) (v : ℚ) :
    (l.map (fun x => if x.id = a then { x with nacl_balance := v } else x)).find?
        (fun x => x.id = a)
      = (l.find? (fun x => x.id = a)).map (fun x => { x with nacl_balance := v }) := by
  induction l with
  | nil => rfl
  | cons hd tl ih =>
    by_cases h : hd.id = a
    · simp [h]
    · simp [h, ih]

theorem getAgentById_updateAgentBalance_self (a : String) (v : ℚ) (st : DB) :
    getAgentById a (updateAgentBalance a v st)
      = (getAgentById a st).map (fun ag => { ag with nacl_balance := v }) :=
  find?_update_agent st.agents a v

theorem naclBalance_updateAgentBalance_self {a : String} {v : ℚ} {st : DB}
    {ag : Agent} (h : getAgentById a st = some ag) :
    naclBalance a (updateAgentBalance a v st) = v := by
  unfold naclBalance
  rw [getAgentById_updateAgentBalance_self, h]
  rfl

theorem naclBalance_eq_of_getAgentById {a : String} {st : DB} {ag : Agent}
    (h : getAgentById a st = some ag) : naclBalance a st = ag.nacl_balance := by
  unfold naclBalance
  rw [h]

/-! ## C10 — consumeSpecDeposit has no positivity check -/

/-- C10: `consumeSpecDeposit` performs no positivity check on its amount:
given an active deposit (with `consumed ≤ amount`, so the remaining budget
is non-negative), any `amount ≤ 0` trivially passes the
`amount > remaining` guard; the call succeeds, moves the `consumed`
counter by that amount (decreasing it when negative), and appends a
`spec_review_payment` journal row with that amount. -/
theorem consume_accepts_nonpositive_amount
    (listingId reason : String) (amount : ℚ) (st : DB) (deposit : SpecDeposit)
    (hdep : getActiveSpecDeposit listingId st = some deposit)
    (hrem : deposit.consumed ≤ deposit.amount)
    (hamt : amount ≤ 0) :
    ∃ stOut depOut,
      consumeSpecDeposit listingId reason amount st = .ok (stOut, depOut)
        ∧ depOut.consumed = deposit.consumed + amount
        ∧ stOut.journal = st.journal ++
            [{ fromAgent := some deposit.agent_id, toAgent := none,
               amount := amount, kind := "spec_review_payment",
               description := reason }] := by
  have hguard : ¬ (deposit.amount - deposit.consumed < amount) := by linarith
  unfold consumeSpecDeposit
  rw [hdep]
  simp only [if_neg hguard]
  exact ⟨_, _, rfl, rfl, rfl⟩

/-- A one-deposit store used to instantiate the consume law. -/
def consumeExampleStore : DB :=
  { agents := [], listings := [], orders := [],
    deposits := [{ id := "D1", listing_id := "L1", agent_id := "P1",
                   amount := 500, currency := "NACL", consumed := 100,
                   status := "active", created_at := "t0", frozen_at := none }],
    milestones := [], submissions := [], journal := [] }

/-- The deposit row of `consumeExampleStore`. -/
def consumeExampleDeposit : SpecDeposit :=
  { id := "D1", listing_id := "L1", agent_id := "P1", amount := 500,
    currency := "NACL", consumed := 100, status := "active",
    created_at := "t0", frozen_at := none }

theorem consume_accepts_nonpositive_amount_witness :
    getActiveSpecDeposit "L1" consumeExampleStore = some consumeExampleDeposit
      ∧ consumeExampleDeposit.consumed ≤ consumeExampleDeposit.amount
      ∧ ((-50 : ℚ) ≤ 0)
      ∧ ∃ stOut depOut,
          consumeSpecDeposit "L1" "reviewer" (-50) consumeExampleStore
              = .ok (stOut, depOut)
            ∧ depOut.consumed = consumeExampleDeposit.consumed + (-50)
            ∧ stOut.journal = consumeExampleStore.journal ++
                [{ fromAgent := some consumeExampleDeposit.agent_id,
                   toAgent := none, amount := -50,
                   kind := "spec_review_payment", description := "reviewer" }] :=
  ⟨rfl, by norm_num [consumeExampleDeposit], by norm_num,
   consume_accepts_nonpositive_amount "L1" "reviewer" (-50) consumeExampleStore
     consumeExampleDeposit rfl (by norm_num [consumeExampleDeposit]) (by norm_num)⟩

/-! ## C5 — freeze credit law -/

/-- C5: for every freeze of a `clarifying` listing with an active spec
deposit (depositor = caller, `consumed ≤ amount`), `freezeSpec` succeeds,
the depositor's balance increases by exactly `amount − consumed`, every
row of the deposit becomes `frozen`, and the listing becomes `frozen`. -/
theorem freeze_credit_law
    (listingId agentId now : String) (st : DB)
    (listing : MarketListing) (deposit : SpecDeposit) (agent : Agent)
    (hlist : getMarketListing listingId st = some listing)
    (howner : listing.agent_id = agentId)
    (hstatus : listing.status = "clarifying")
    (hdep : getActiveSpecDeposit listingId st = some deposit)
    (_hdepositor : deposit.agent_id = agentId)
    (hagent : getAgentById agentId st = some agent)
    (hcons : deposit.consumed ≤ deposit.amount) :
    ∃ stOut,
      freezeSpec listingId agentId now st
          = .ok (stOut, { deposit with status := "frozen", frozen_at := some now },
                 deposit.amount - deposit.consumed)
        ∧ naclBalance agentId stOut
            = naclBalance agentId st + (deposit.amount - deposit.consumed)
        ∧ (∀ d ∈ stOut.deposits, d.id = deposit.id → d.status = "frozen")
        ∧ (∀ l ∈ stOut.listings, l.id = listingId → l.status = "frozen") := by
  have hnb : naclBalance agentId st = agent.nacl_balance :=
    naclBalance_eq_of_getAgentById hagent
  have hzero : ¬ 0 < deposit.amount - deposit.consumed →
      deposit.amount - deposit.consumed = 0 := by
    intro h
    have h1 : deposit.amount - deposit.consumed ≤ 0 := not_lt.mp h
    linarith
  unfold freezeSpec
  rw [hlist]
  simp only [howner, hstatus, ne_eq, not_true_eq_false, if_false, hdep]
  set st2 := updateMarketListing listingId (fun l => { l with status := "frozen" })
    (updateSpecDeposit deposit.id
      (fun d => { d with status := "frozen", frozen_at := some now }) st) with hst2
  have hagent2 : getAgentById agentId st2 = some agent := hagent
  have hdeps : ∀ stX : DB, stX.deposits = st2.deposits →
      ∀ d ∈ stX.deposits, d.id = deposit.id → d.status = "frozen" := by
    intro stX hX d hd hid
    rw [hX] at hd
    have hd2 : d ∈ st.deposits.map (fun x =>
        if x.id = deposit.id then { x with status := "frozen", frozen_at := some now }
        else x) := hd
    rcases List.mem_map.mp hd2 with ⟨x, hx, rfl⟩
    by_cases hxid : x.id = deposit.id
    · simp [hxid]
    · simp only [hxid, if_false] at hid
  have hlists : ∀ stX : DB, stX.listings = st2.listings →
      ∀ l ∈ stX.listings, l.id = listingId → l.status = "frozen" := by
    intro stX hX l hl hid
    rw [hX] at hl
    have hl2 : l ∈ (updateSpecDeposit deposit.id
        (fun d => { d with status := "frozen", frozen_at := some now }) st).listings.map
        (fun x => if x.id = listingId then { x with status := "frozen" } else x) := hl
    rcases List.mem_map.mp hl2 with ⟨x, hx, rfl⟩
    by_cases hxid : x.id = listingId
    · simp [hxid]
    · simp only [hxid, if_false] at hid
  by_cases hpos : 0 < deposit.amount - deposit.consumed
  · rw [if_pos hpos, hagent2]
    refine ⟨_, rfl, ?_, hdeps _ rfl, hlists _ rfl⟩
    have hstep :
        naclBalance agentId
          (createNaclTransaction none (some agentId)
            (deposit.amount - deposit.consumed) "spec_freeze_credit"
            ("Remaining spec deposit returned on freeze for listing " ++ listingId)
            (updateAgentBalance agentId
              (agent.nacl_balance + (deposit.amount - deposit.consumed)) st2))
          = naclBalance agentId (updateAgentBalance agentId
              (agent.nacl_balance + (deposit.amount - deposit.consumed)) st2) := rfl
    rw [hstep, naclBalance_updateAgentBalance_self hagent2, hnb]
  · rw [if_neg hpos]
    refine ⟨_, rfl, ?_, hdeps _ rfl, hlists _ rfl⟩
    have hsame : naclBalance agentId st2 = naclBalance agentId st := rfl
    rw [hsame, hzero hpos, add_zero]

/-- The E3 store: poster `P1` (balance 500 after the 500-Salt deposit),
listing `L1` clarifying, deposit of 500 with 120 consumed. -/
def freezeExampleStore : DB :=
  { agents := [{ id := "P1", nacl_balance := 500 }],
    listings := [{ id := "L1", agent_id := "P1", status := "clarifying",
                   currency := "salt", price := 1000, usdc_amount := none,
                   completed_count := 0 }],
    orders := [],
    deposits := [{ id := "D1", listing_id := "L1", agent_id := "P1",
                   amount := 500, currency := "NACL", consumed := 120,
                   status := "active", created_at := "t0", frozen_at := none }],
    milestones := [], submissions := [], journal := [] }

/-- The listing row of `freezeExampleStore`. -/
def freezeExampleListing : MarketListing :=
  { id := "L1", agent_id := "P1", status := "clarifying", currency := "salt",
    price := 1000, usdc_amount := none, completed_count := 0 }

/-- The deposit row of `freezeExampleStore`. -/
def freezeExampleDeposit : SpecDeposit :=
  { id := "D1", listing_id := "L1", agent_id := "P1", amount := 500,
    currency := "NACL", consumed := 120, status := "active",
    created_at := "t0", frozen_at := none }

/-- The agent row of `freezeExampleStore`. -/
def freezeExampleAgent : Agent := { id := "P1", nacl_balance := 500 }

theorem freeze_credit_law_witness :
    getMarketListing "L1" freezeExampleStore = some freezeExampleListing
      ∧ freezeExampleListing.agent_id = "P1"
      ∧ freezeExampleListing.status = "clarifying"
      ∧ getActiveSpecDeposit "L1" freezeExampleStore = some freezeExampleDeposit
      ∧ freezeExampleDeposit.agent_id = "P1"
      ∧ getAgentById "P1" freezeExampleStore = some freezeExampleAgent
      ∧ freezeExampleDeposit.consumed ≤ freezeExampleDeposit.amount
      ∧ freezeExampleDeposit.amount - freezeExampleDeposit.consumed = (380 : ℚ)
      ∧ ∃ stOut,
          freezeSpec "L1" "P1" "t1" freezeExampleStore
              = .ok (stOut,
                     { freezeExampleDeposit with
                       status := "frozen", frozen_at := some "t1" },
                     freezeExampleDeposit.amount - freezeExampleDeposit.consumed)
            ∧ naclBalance "P1" stOut
                = naclBalance "P1" freezeExampleStore
                    + (freezeExampleDeposit.amount - freezeExampleDeposit.consumed)
            ∧ (∀ d ∈ stOut.deposits, d.id = freezeExampleDeposit.id →
                 d.status = "frozen")
            ∧ (∀ l ∈ stOut.listings, l.id = "L1" → l.status = "frozen") :=
  ⟨rfl, rfl, rfl, rfl, rfl, rfl, by norm_num [freezeExampleDeposit],
   by norm_num [freezeExampleDeposit],
   freeze_credit_law "L1" "P1" "t1" freezeExampleStore freezeExampleListing
     freezeExampleDeposit freezeExampleAgent rfl rfl rfl rfl rfl rfl
     (by norm_num [freezeExampleDeposit])⟩

/-! ## C3 — drift correction does not happen; C4 — auto-release timing -/

/-- C3 counterexample oracle: the chain reports the bounty `Approved`. -/
def driftGetBounty : String → Except String OnChainBounty := fun _ =>
  .ok { poster := "0xP", worker := "0xW", amount := "100.0",
        workerStake := "10.0", deadline := 0, submittedAt := 500,
        status := 3, statusLabel := "approved", bountyId := "L1" }

/-- C3 counterexample oracle: auto-release would succeed if called. -/
def driftAutoRelease : String → Except String String := fun _ => .ok "0xtxhash"

/-- C3 counterexample record: stored at status `submitted`. -/
def driftRecord : UsdcTxRecord :=
  { id := "U1", listing_id := some "L1", bounty_hash := "0xabc",
    poster_id := some "P1", worker_id := some "W1", amount := 100,
    status := "submitted", tx_hash := none, completed_at := none }

/-- C3 counterexample: a reconciler run over a `submitted` record whose
on-chain status is 3 (`Approved`, ≠ `Submitted`) leaves the record exactly
as it was — still at status `submitted`, not advanced to match the
observed on-chain status. -/
theorem reconciler_no_drift_correction :
    (driftGetBounty driftRecord.bounty_hash).map (fun b => b.status) = .ok 3
      ∧ runReconciler driftGetBounty driftAutoRelease 1000000 "t1" [driftRecord]
          = ([driftRecord], 0, [])
      ∧ driftRecord.status = "submitted" :=
  ⟨rfl, rfl, rfl⟩

/-- C3 (amended): during a reconciler run, a selected record whose
on-chain bounty status is observed to be other than `Submitted` (2) is
skipped without any write — the run performs no drift correction and
moves to the next record. -/
theorem reconciler_skips_non_submitted
    (getBounty : String → Except String OnChainBounty)
    (autoRelease : String → Except String String)
    (now : Nat) (nowIso : String) (tx : UsdcTxRecord) (b : OnChainBounty)
    (hb : getBounty tx.bounty_hash = .ok b)
    (hstatus : b.status ≠ 2) :
    processSubmittedTx getBounty autoRelease now nowIso tx = .skipped := by
  unfold processSubmittedTx
  rw [hb]
  simp only [if_pos hstatus]

/-- A chain oracle reporting `Cancelled` (5), to instantiate the skip law. -/
def skipGetBounty : String → Except String OnChainBounty := fun _ =>
  .ok { poster := "0xP", worker := "0xW", amount := "7.0",
        workerStake := "0.7", deadline := 0, submittedAt := 0,
        status := 5, statusLabel := "cancelled", bountyId := "L2" }

/-- A record at `submitted` for the skip law instance. -/
def skipRecord : UsdcTxRecord :=
  { id := "U2", listing_id := some "L2", bounty_hash := "0xdef",
    poster_id := some "P2", worker_id := some "W2", amount := 7,
    status := "submitted", tx_hash := none, completed_at := none }

theorem reconciler_skips_non_submitted_witness :
    skipGetBounty skipRecord.bounty_hash
        = .ok { poster := "0xP", worker := "0xW", amount := "7.0",
                workerStake := "0.7", deadline := 0, submittedAt := 0,
                status := 5, statusLabel := "cancelled", bountyId := "L2" }
      ∧ (5 : Nat) ≠ 2
      ∧ processSubmittedTx skipGetBounty driftAutoRelease 1000 "t"
          skipRecord = .skipped :=
  ⟨rfl, by decide,
   reconciler_skips_non_submitted skipGetBounty driftAutoRelease 1000 "t"
     skipRecord _ rfl (by decide)⟩

/-- C4: for a record whose on-chain bounty is `Submitted` (status 2) with
a set submission time `T = submittedAt > 0`: a run strictly before
`T + 72 h` (`autoReleaseSeconds = 259 200 s`) skips the record, and a run
at or after `T + 72 h` calls `autoRelease` and, on a confirmed
transaction hash, advances the record to `auto_released`, stores the
returned hash, and stamps `completed_at` with the current time. -/
theorem reconciler_auto_release_timing
    (getBounty : String → Except String OnChainBounty)
    (autoRelease : String → Except String String)
    (now : Nat) (nowIso : String) (tx : UsdcTxRecord) (b : OnChainBounty)
    (hb : getBounty tx.bounty_hash = .ok b)
    (hstatus : b.status = 2)
    (hT : 0 < b.submittedAt) :
    autoReleaseSeconds = 72 * 3600
      ∧ (now < b.submittedAt + autoReleaseSeconds →
          processSubmittedTx getBounty autoRelease now nowIso tx = .skipped)
      ∧ (b.submittedAt + autoReleaseSeconds ≤ now →
          ∀ txHash, autoRelease tx.bounty_hash = .ok txHash →
            processSubmittedTx getBounty autoRelease now nowIso tx
              = .released { tx with
                  status := "auto_released", tx_hash := some txHash,
                  completed_at := some nowIso }) := by
  have hne : ¬ b.status ≠ 2 := by simp [hstatus]
  have hz : ¬ b.submittedAt = 0 := Nat.pos_iff_ne_zero.mp hT
  refine ⟨rfl, ?_, ?_⟩
  · intro hearly
    unfold processSubmittedTx
    rw [hb]
    simp only [if_neg hne, if_neg hz, if_pos hearly]
  · intro hlate txHash hrel
    unfold processSubmittedTx
    rw [hb]
    have hnotlt : ¬ now < b.submittedAt + autoReleaseSeconds := not_lt.mpr hlate
    simp only [if_neg hne, if_neg hz, if_neg hnotlt]
    rw [hrel]

/-- A chain oracle for the E5 instance: bounty `Submitted` at `T = 100`. -/
def releaseGetBounty : String → Except String OnChainBounty := fun _ =>
  .ok { poster := "0xP", worker := "0xW", amount := "100.0",
        workerStake := "10.0", deadline := 0, submittedAt := 100,
        status := 2, statusLabel := "submitted", bountyId := "L3" }

/-- An auto-release oracle confirming with hash `0xrelease`. -/
def releaseAutoRelease : String → Except String String := fun _ => .ok "0xrelease"

/-- The E5 record at status `submitted`. -/
def releaseRecord : UsdcTxRecord :=
  { id := "U3", listing_id := some "L3", bounty_hash := "0x123",
    poster_id := some "P3", worker_id := some "W3", amount := 100,
    status := "submitted", tx_hash := none, completed_at := none }

theorem reconciler_auto_release_timing_witness :
    releaseGetBounty releaseRecord.bounty_hash
        = .ok { poster := "0xP", worker := "0xW", amount := "100.0",
                workerStake := "10.0", deadline := 0, submittedAt := 100,
                status := 2, statusLabel := "submitted", bountyId := "L3" }
      ∧ (0 : Nat) < 100
      ∧ ((100 + autoReleaseSeconds - 1) < 100 + autoReleaseSeconds →
          processSubmittedTx releaseGetBounty releaseAutoRelease
            (100 + autoReleaseSeconds - 1) "t-early" releaseRecord = .skipped)
      ∧ (100 + autoReleaseSeconds ≤ 100 + autoReleaseSeconds →
          ∀ txHash, releaseAutoRelease releaseRecord.bounty_hash = .ok txHash →
            processSubmittedTx releaseGetBounty releaseAutoRelease
              (100 + autoReleaseSeconds) "t-late" releaseRecord
              = .released { releaseRecord with
                  status := "auto_released", tx_hash := some txHash,
                  completed_at := some "t-late" }) :=
  ⟨rfl, by decide,
   (reconciler_auto_release_timing releaseGetBounty releaseAutoRelease
     (100 + autoReleaseSeconds - 1) "t-early" releaseRecord _ rfl rfl
     (by decide)).2.1,
   (reconciler_auto_release_timing releaseGetBounty releaseAutoRelease
     (100 + autoReleaseSeconds) "t-late" releaseRecord _ rfl rfl
     (by decide)).2.2⟩

/-! ## C1 — accepting an order; C8 — the dispute transition -/

theorem transferNacl_issuance {t : String} {amount : ℚ} {kind desc : String}
    {st : DB} {ag : Agent} (h1 : 0 < amount) (h2 : amount ≤ 10000)
    (hag : getAgentById t st = some ag) :
    transferNacl none (some t) amount kind desc st
      = .ok (createNaclTransaction none (some t) amount kind desc
          (updateAgentBalance t (ag.nacl_balance + amount) st)) := by
  unfold transferNacl
  rw [if_neg (not_le.mpr h1), if_neg (not_lt.mpr h2), if_neg (by simp)]
  simp only [hag]

/-- C1 (amended): when the buyer accepts a `delivered` service order (with
a positive price within the ledger maximum, the seller present, and the
parent listing present), the handler succeeds: the seller is credited the
order price by a system-to-seller `service_payment` ledger entry, the
order becomes `accepted`, and the parent listing's `completed_count` is
incremented by one while every other listing field — its status
included — is left unchanged (no transition to `completed`). -/
theorem accept_credits_seller_and_increments_count
    (actorId orderId now : String) (resp : Option String) (st : DB)
    (order : ServiceOrder) (listing : MarketListing) (seller : Agent)
    (hord : st.orders.find? (fun o => o.id = orderId) = some order)
    (hbuyer : order.buyer_id = actorId)
    (hstatus : order.status = "delivered")
    (hpos : 0 < order.price) (hmax : order.price ≤ 10000)
    (hseller : getAgentById order.seller_id st = some seller)
    (hlist : getMarketListing order.listing_id st = some listing) :
    ∃ stOut,
      patchServiceOrder actorId orderId "accept" resp now st = .ok stOut
        ∧ naclBalance order.seller_id stOut
            = naclBalance order.seller_id st + order.price
        ∧ stOut.journal = st.journal ++
            [{ fromAgent := none, toAgent := some order.seller_id,
               amount := order.price, kind := "service_payment",
               description := "Service completed: " ++ order.listing_title }]
        ∧ (∀ o ∈ stOut.orders, o.id = orderId → o.status = "accepted")
        ∧ stOut.listings = st.listings.map (fun l =>
            if l.id = order.listing_id then
              { l with completed_count := listing.completed_count + 1 }
            else l) := by
  unfold patchServiceOrder
  rw [hord]
  simp only [hbuyer, hstatus, ne_eq, not_true_eq_false, if_false,
    String.reduceEq, reduceIte]
  rw [transferNacl_issuance hpos hmax hseller]
  have hlist2 : getMarketListing order.listing_id
      (updateServiceOrder orderId
        (fun o => { o with status := "accepted", completed_at := some now })
        (createNaclTransaction none (some order.seller_id) order.price
          "service_payment" ("Service completed: " ++ order.listing_title)
          (updateAgentBalance order.seller_id
            (seller.nacl_balance + order.price) st)))
      = some listing := hlist
  simp only [hlist2]
  refine ⟨_, rfl, ?_, ?_, ?_, ?_⟩
  · show naclBalance order.seller_id
        (updateAgentBalance order.seller_id
          (seller.nacl_balance + order.price) st)
      = naclBalance order.seller_id st + order.price
    rw [naclBalance_updateAgentBalance_self hseller,
      naclBalance_eq_of_getAgentById hseller]
  · rfl
  · intro o ho hid
    have ho2 : o ∈ st.orders.map (fun x =>
        if x.id = orderId then { x with status := "accepted", completed_at := some now }
        else x) := ho
    rcases List.mem_map.mp ho2 with ⟨x, hx, rfl⟩
    by_cases hxid : x.id = orderId
    · simp [hxid]
    · simp only [hxid, if_false] at hid
  · rfl

/-- The store for the C1 counterexample: buyer `B1`, seller `S1`, a
delivered order of price 100 on an `active` service listing. -/
def acceptExampleStore : DB :=
  { agents := [{ id := "B1", nacl_balance := 0 },
               { id := "S1", nacl_balance := 0 }],
    listings := [{ id := "L1", agent_id := "S1", status := "active",
                   currency := "salt", price := 100, usdc_amount := none,
                   completed_count := 0 }],
    orders := [{ id := "O1", listing_id := "L1", buyer_id := "B1",
                 seller_id := "S1", listing_title := "do X", price := 100,
                 status := "delivered", response := some "done",
                 delivered_at := some "t0", completed_at := none }],
    deposits := [], milestones := [], submissions := [], journal := [] }

/-- C1 counterexample: accepting the delivered order succeeds and the
post-state listing is still `active` with `completed_count = 1` — the
listing does *not* transition to `completed`. -/
theorem accept_leaves_listing_status_unchanged :
    (patchServiceOrder "B1" "O1" "accept" none "t1" acceptExampleStore).map
        (fun s => (s.listings.map (fun l => (l.status, l.completed_count)),
                   s.orders.map (fun o => o.status)))
      = .ok ([("active", 1)], ["accepted"]) := by
  rfl

/-- The order row of `acceptExampleStore` (used to instantiate C1). -/
def acceptExampleOrder : ServiceOrder :=
  { id := "O1", listing_id := "L1", buyer_id := "B1", seller_id := "S1",
    listing_title := "do X", price := 100, status := "delivered",
    response := some "done", delivered_at := some "t0", completed_at := none }

/-- The listing row of `acceptExampleStore`. -/
def acceptExampleListing : MarketListing :=
  { id := "L1", agent_id := "S1", status := "active", currency := "salt",
    price := 100, usdc_amount := none, completed_count := 0 }

theorem accept_credits_seller_witness :
    acceptExampleStore.orders.find? (fun o => o.id = "O1")
        = some acceptExampleOrder
      ∧ acceptExampleOrder.buyer_id = "B1"
      ∧ acceptExampleOrder.status = "delivered"
      ∧ (0 : ℚ) < acceptExampleOrder.price
      ∧ acceptExampleOrder.price ≤ 10000
      ∧ ∃ stOut,
          patchServiceOrder "B1" "O1" "accept" none "t1" acceptExampleStore
              = .ok stOut
            ∧ naclBalance acceptExampleOrder.seller_id stOut
                = naclBalance acceptExampleOrder.seller_id acceptExampleStore
                    + acceptExampleOrder.price
            ∧ stOut.journal = acceptExampleStore.journal ++
                [{ fromAgent := none,
                   toAgent := some acceptExampleOrder.seller_id,
                   amount := acceptExampleOrder.price,
                   kind := "service_payment",
                   description := "Service completed: "
                     ++ acceptExampleOrder.listing_title }]
            ∧ (∀ o ∈ stOut.orders, o.id = "O1" → o.status = "accepted")
            ∧ stOut.listings = acceptExampleStore.listings.map (fun l =>
                if l.id = acceptExampleOrder.listing_id then
                  { l with
                    completed_count := acceptExampleListing.completed_count + 1 }
                else l) :=
  ⟨rfl, rfl, rfl, by norm_num [acceptExampleOrder],
   by norm_num [acceptExampleOrder],
   accept_credits_seller_and_increments_count "B1" "O1" "t1" none
     acceptExampleStore acceptExampleOrder acceptExampleListing
     { id := "S1", nacl_balance := 0 } rfl rfl rfl
     (by norm_num [acceptExampleOrder]) (by norm_num [acceptExampleOrder])
     rfl rfl⟩

/-- C8 (amended): the `dispute` action of the order PATCH handler checks
only that the actor is the order's buyer or seller; it performs no check
of the order's current status, so a dispute succeeds from *any* status
(pending, accepted, cancelled, …), setting the order to `disputed`; a
non-participant is rejected with 403. -/
theorem dispute_checks_role_only
    (actorId orderId now : String) (resp : Option String) (st : DB)
    (order : ServiceOrder)
    (hord : st.orders.find? (fun o => o.id = orderId) = some order) :
    (order.buyer_id = actorId ∨ order.seller_id = actorId →
       patchServiceOrder actorId orderId "dispute" resp now st
         = .ok (updateServiceOrder orderId
             (fun o => { o with status := "disputed" }) st))
      ∧ (order.buyer_id ≠ actorId ∧ order.seller_id ≠ actorId →
       patchServiceOrder actorId orderId "dispute" resp now st
         = .error (403, "Only buyer or seller can dispute")) := by
  constructor
  · intro hrole
    unfold patchServiceOrder
    rw [hord]
    simp only [String.reduceEq, reduceIte]
    have hcond : ¬ (order.buyer_id ≠ actorId ∧ order.seller_id ≠ actorId) := by
      rcases hrole with h | h <;> simp [h]
    rw [if_neg hcond]
  · intro hrole
    unfold patchServiceOrder
    rw [hord]
    simp only [String.reduceEq, reduceIte]
    rw [if_pos hrole]

/-- The store for the C8 counterexample: an order already `accepted`
(a terminal status outside `delivered`/`in_progress`). -/
def disputeExampleStore : DB :=
  { agents := [], listings := [],
    orders := [{ id := "O2", listing_id := "L2", buyer_id := "B2",
                 seller_id := "S2", listing_title := "svc", price := 10,
                 status := "accepted", response := some "done",
                 delivered_at := some "t0", completed_at := some "t1" }],
    deposits := [], milestones := [], submissions := [], journal := [] }

/-- C8 counterexample: the buyer disputes an order whose status is
`accepted` — neither `delivered` nor `in_progress` — and the handler
accepts the transition, moving the order to `disputed`. -/
theorem dispute_from_accepted_succeeds :
    (disputeExampleStore.orders.map (fun o => o.status) = ["accepted"])
      ∧ (patchServiceOrder "B2" "O2" "dispute" none "t2" disputeExampleStore).map
          (fun s => s.orders.map (fun o => o.status))
        = .ok ["disputed"] :=
  ⟨rfl, rfl⟩

/-- The order row of `disputeExampleStore`. -/
def disputeExampleOrder : ServiceOrder :=
  { id := "O2", listing_id := "L2", buyer_id := "B2", seller_id := "S2",
    listing_title := "svc", price := 10, status := "accepted",
    response := some "done", delivered_at := some "t0",
    completed_at := some "t1" }

theorem dispute_checks_role_only_witness :
    disputeExampleStore.orders.find? (fun o => o.id = "O2")
        = some disputeExampleOrder
      ∧ (disputeExampleOrder.buyer_id = "B2" ∨ disputeExampleOrder.seller_id = "B2")
      ∧ patchServiceOrder "B2" "O2" "dispute" none "t2" disputeExampleStore
          = .ok (updateServiceOrder "O2"
              (fun o => { o with status := "disputed" }) disputeExampleStore) :=
  ⟨rfl, Or.inl rfl,
   (dispute_checks_role_only "B2" "O2" "t2" none disputeExampleStore
     disputeExampleOrder rfl).1 (Or.inl rfl)⟩

/-! ## C7 — milestone ordering and approval gates -/

instance : IsTotal Milestone (fun a b => a.order_index ≤ b.order_index) :=
  ⟨fun a b => Nat.le_total a.order_index b.order_index⟩

instance : IsTrans Milestone (fun a b => a.order_index ≤ b.order_index) :=
  ⟨fun _ _ _ h1 h2 => Nat.le_trans h1 h2⟩

theorem checkPrev_ok_lower_approved (target : Milestone) :
    ∀ l : List Milestone,
      List.Sorted (fun a b => a.order_index ≤ b.order_index) l →
      (∀ m ∈ l, m.id = target.id → m = target) →
      checkPreviousMilestones target l = .ok () →
      ∀ m ∈ l, m.order_index < target.order_index → m.status = "approved" := by
  intro l
  induction l with
  | nil => intro _ _ _ m hm; simp at hm
  | cons hd tl ih =>
    intro hsorted huniq hok m hm hlt
    rw [checkPreviousMilestones] at hok
    by_cases hcond : hd.order_index < target.order_index ∧ hd.status ≠ "approved"
    · rw [if_pos hcond] at hok
      exact absurd hok (by simp)
    · rw [if_neg hcond] at hok
      rcases List.mem_cons.mp hm with rfl | hmem
      · by_cases happ : m.status = "approved"
        · exact happ
        · exact absurd ⟨hlt, happ⟩ hcond
      · by_cases hid : hd.id = target.id
        · have hhd : hd = target := huniq hd (by simp) hid
          have hle : target.order_index ≤ m.order_index := by
            have := (List.sorted_cons.mp hsorted).1 m hmem
            rw [hhd] at this
            exact this
          exact absurd hlt (not_lt.mpr hle)
        · rw [if_neg hid] at hok
          exact ih (List.sorted_cons.mp hsorted).2
            (fun x hx hxid => huniq x (List.mem_cons_of_mem _ hx) hxid)
            hok m hmem hlt

/-- The E2 store: listing `L` (price 1000 Salt, poster `P`) with the plan
[{A,25}, {B,25}, {C,50}], where only A has been approved. -/
def milestoneExampleStore : DB :=
  { agents := [], listings :=
      [{ id := "L", agent_id := "P", status := "frozen", currency := "salt",
         price := 1000, usdc_amount := none, completed_count := 0 }],
    orders := [], deposits := [],
    milestones :=
      [{ id := "A", listing_id := "L", title := "A", budget_percentage := 25,
         order_index := 0, status := "approved", agent_id := some "W",
         started_at := some "t0", submitted_at := some "t1",
         approved_at := some "t2" },
       { id := "B", listing_id := "L", title := "B", budget_percentage := 25,
         order_index := 1, status := "pending", agent_id := none,
         started_at := none, submitted_at := none, approved_at := none },
       { id := "C", listing_id := "L", title := "C", budget_percentage := 50,
         order_index := 2, status := "pending", agent_id := none,
         started_at := none, submitted_at := none, approved_at := none }],
    submissions := [], journal := [] }

/-- C7: (1) `startMilestone` succeeds only when every milestone of the
listing with a strictly lower `order_index` is `approved` (milestone ids
assumed unique, as they are store primary keys); (2) `approveMilestone`
succeeds only from status `submitted`; (3) in the E2 plan
[{A,25}, {B,25}, {C,50}] with only A approved, approving C is rejected
with an invalid-state error. -/
theorem milestone_gates :
    (∀ (st : DB) (milestoneId agentId now : String) (stOut : DB)
        (target : Milestone),
        st.milestones.find? (fun m => m.id = milestoneId) = some target →
        (st.milestones.map (fun m => m.id)).Nodup →
        startMilestone milestoneId agentId now st = .ok stOut →
        ∀ m ∈ st.milestones, m.listing_id = target.listing_id →
          m.order_index < target.order_index → m.status = "approved")
      ∧ (∀ (st : DB) (milestoneId posterId now : String)
          (out : DB × ℚ) (target : Milestone),
          st.milestones.find? (fun m => m.id = milestoneId) = some target →
          approveMilestone milestoneId posterId now st = .ok out →
          target.status = "submitted")
      ∧ approveMilestone "C" "P" "t3" milestoneExampleStore
          = .error "Milestone is pending, cannot approve" := by
  refine ⟨?_, ?_, rfl⟩
  · intro st milestoneId agentId now stOut target hfind hnodup hok m hm hlst hlt
    unfold startMilestone at hok
    rw [hfind] at hok
    by_cases hpend : target.status = "pending"
    · simp only [hpend, ne_eq, not_true_eq_false, if_false] at hok
      set sorted := List.insertionSort (fun a b => a.order_index ≤ b.order_index)
        (st.milestones.filter (fun m => m.listing_id = target.listing_id))
        with hsorted_def
      cases hck : checkPreviousMilestones target sorted with
      | error e => rw [hck] at hok; exact absurd hok (by simp)
      | ok u =>
        cases u
        have hperm : sorted.Perm
            (st.milestones.filter (fun m => m.listing_id = target.listing_id)) :=
          List.perm_insertionSort _ _
        have hmem_sorted : m ∈ sorted := by
          rw [hperm.mem_iff]
          exact List.mem_filter.mpr ⟨hm, by simp [hlst]⟩
        have hsorted : List.Sorted (fun a b => a.order_index ≤ b.order_index)
            sorted := List.sorted_insertionSort _ _
        have htarget_mem : target ∈ st.milestones :=
          List.mem_of_find?_eq_some hfind
        have huniq : ∀ x ∈ sorted, x.id = target.id → x = target := by
          intro x hx hxid
          have hx2 : x ∈ st.milestones :=
            List.mem_of_mem_filter (hperm.mem_iff.mp hx)
          exact List.inj_on_of_nodup_map hnodup hx2 htarget_mem hxid
        exact checkPrev_ok_lower_approved target sorted hsorted huniq hck
          m hmem_sorted hlt
    · simp only [hpend, ne_eq, not_false_eq_true, if_true] at hok
      exact absurd hok (by simp)
  · intro st milestoneId posterId now out target hfind hok
    unfold approveMilestone at hok
    rw [hfind] at hok
    by_cases hsub : target.status = "submitted"
    · exact hsub
    · simp only [hsub, ne_eq, not_false_eq_true, if_true] at hok
      exact absurd hok (by simp)

/-- A store with a single `submitted` milestone, to instantiate the
approval gate. -/
def approveExampleStore : DB :=
  { agents := [], listings :=
      [{ id := "L4", agent_id := "P4", status := "frozen", currency := "salt",
         price := 100, usdc_amount := none, completed_count := 0 }],
    orders := [], deposits := [],
    milestones :=
      [{ id := "M1", listing_id := "L4", title := "M1",
         budget_percentage := 50, order_index := 0, status := "submitted",
         agent_id := none, started_at := some "t0",
         submitted_at := some "t1", approved_at := none }],
    submissions := [], journal := [] }

/-- The milestone row of `approveExampleStore`. -/
def approveExampleMilestone : Milestone :=
  { id := "M1", listing_id := "L4", title := "M1", budget_percentage := 50,
    order_index := 0, status := "submitted", agent_id := none,
    started_at := some "t0", submitted_at := some "t1", approved_at := none }

theorem milestone_gates_witness :
    approveExampleStore.milestones.find? (fun m => m.id = "M1")
        = some approveExampleMilestone
      ∧ (∃ out, approveMilestone "M1" "P4" "t2" approveExampleStore = .ok out)
      ∧ approveExampleMilestone.status = "submitted" :=
  ⟨rfl, ⟨_, rfl⟩,
   milestone_gates.2.1 approveExampleStore "M1" "P4" "t2" _
     approveExampleMilestone rfl rfl⟩

/-! ## C6 — the E4 change-impact instance -/

/-- The E4 DAG: `b` and `d` depend on `a`, `c` depends on `b`, with costs
a=100, b=50, c=50, d=20. -/
def e4graph : BountyGraph :=
  { nodes :=
      [{ id := "a", status := "pending", depends := [], cost := some 100 },
       { id := "b", status := "pending", depends := ["a"], cost := some 50 },
       { id := "c", status := "pending", depends := ["b"], cost := some 50 },
       { id := "d", status := "pending", depends := ["a"], cost := some 20 }] }

/-- C6: on the E4 DAG with seeds [a], the impact analysis returns
changed=[a], direct=[b,d], transitive=[c], total=4,
`ceil((100+50+20+50) × 0.2) = 44`, risk `medium`. -/
theorem impact_e4_instance :
    calculateChangeImpact e4graph ["a"]
      = { changed_nodes := ["a"], directly_affected := ["b", "d"],
          transitively_affected := ["c"], total_affected_count := 4,
          estimated_cost_increase := 44, risk_level := .medium } := by
  have h0 : bfsLoop e4graph.nodes [("a", 0)] ["a"] [] []
      = bfsLoop e4graph.nodes [("b", 1), ("d", 1)] ["a", "b", "d"]
          ["b", "d"] [] := by
    rw [bfsLoop]
    rfl
  have h1 : bfsLoop e4graph.nodes [("b", 1), ("d", 1)] ["a", "b", "d"]
        ["b", "d"] []
      = bfsLoop e4graph.nodes [("d", 1), ("c", 2)] ["a", "b", "d", "c"]
          ["b", "d"] ["c"] := by
    rw [bfsLoop]
    rfl
  have h2 : bfsLoop e4graph.nodes [("d", 1), ("c", 2)] ["a", "b", "d", "c"]
        ["b", "d"] ["c"]
      = bfsLoop e4graph.nodes [("c", 2)] ["a", "b", "d", "c"]
          ["b", "d"] ["c"] := by
    rw [bfsLoop]
    rfl
  have h3 : bfsLoop e4graph.nodes [("c", 2)] ["a", "b", "d", "c"]
        ["b", "d"] ["c"]
      = (["a", "b", "d", "c"], ["b", "d"], ["c"]) := by
    rw [bfsLoop]
    show bfsLoop e4graph.nodes [] ["a", "b", "d", "c"] ["b", "d"] ["c"] = _
    rw [bfsLoop]
  simp only [calculateChangeImpact]
  rw [show setOf ["a"] = ["a"] from rfl,
    show List.map (fun i => ((i, 0) : String × Nat)) ["a"] = [("a", 0)] from rfl,
    h0, h1, h2, h3]
  have hsum : List.foldl
      (fun acc nodeId => acc + nodeCostShare e4graph.nodes nodeId) 0
      (["a"] ++ (["a", "b", "d", "c"], ["b", "d"], ["c"]).2.1
        ++ (["a", "b", "d", "c"], ["b", "d"], ["c"]).2.2) = (44 : ℚ) := by
    have hfold : List.foldl
        (fun acc nodeId => acc + nodeCostShare e4graph.nodes nodeId) 0
        (["a"] ++ (["a", "b", "d", "c"], ["b", "d"], ["c"]).2.1
          ++ (["a", "b", "d", "c"], ["b", "d"], ["c"]).2.2)
        = 0 + nodeCostShare e4graph.nodes "a" + nodeCostShare e4graph.nodes "b"
            + nodeCostShare e4graph.nodes "d" + nodeCostShare e4graph.nodes "c" :=
      rfl
    have hca : nodeCostShare e4graph.nodes "a" = 100 * (1 / 5) := rfl
    have hcb : nodeCostShare e4graph.nodes "b" = 50 * (1 / 5) := rfl
    have hcd : nodeCostShare e4graph.nodes "d" = 20 * (1 / 5) := rfl
    have hcc : nodeCostShare e4graph.nodes "c" = 50 * (1 / 5) := rfl
    rw [hfold, hca, hcb, hcd, hcc]
    norm_num
  rw [hsum]
  simp only [ImpactAnalysis.mk.injEq]
  norm_num [Int.ceil_ofNat]

/-! ## C2 — competition prize sums -/

theorem sumPrize_cons (e : CompetitionEntryRec) (l : List CompetitionEntryRec) :
    sumPrize (e :: l) = prizeOr0 e + sumPrize l := by
  simp [sumPrize]

theorem sumPrize_eq_zero {es : List CompetitionEntryRec}
    (h : ∀ e ∈ es, e.prize_amount = none) : sumPrize es = 0 := by
  induction es with
  | nil => rfl
  | cons hd tl ih =>
    rw [sumPrize_cons, ih (fun e he => h e (List.mem_cons_of_mem _ he))]
    have : prizeOr0 hd = 0 := by
      unfold prizeOr0
      rw [h hd (by simp)]
      rfl
    rw [this, add_zero]

theorem mem_scoredSorted {entries : List CompetitionEntryRec}
    {e : CompetitionEntryRec} (h : e ∈ scoredSorted entries) : e ∈ entries := by
  unfold scoredSorted at h
  have h2 := (List.perm_insertionSort
    (fun a b => scoreOr0 b ≤ scoreOr0 a)
    (entries.filter (fun e => e.status = "scored" ∧ e.score ≠ none))).mem_iff.mp h
  exact List.mem_of_mem_filter h2

theorem scoredSorted_ids_nodup {entries : List CompetitionEntryRec}
    (h : (entries.map (fun e => e.id)).Nodup) :
    ((scoredSorted entries).map (fun e => e.id)).Nodup := by
  unfold scoredSorted
  have hperm : ((List.insertionSort (fun a b => scoreOr0 b ≤ scoreOr0 a)
        (entries.filter (fun e => e.status = "scored" ∧ e.score ≠ none))).map
          (fun e => e.id)).Perm
      ((entries.filter (fun e => e.status = "scored" ∧ e.score ≠ none)).map
          (fun e => e.id)) :=
    (List.perm_insertionSort _ _).map _
  rw [hperm.nodup_iff]
  exact h.sublist ((List.filter_sublist _).map _)

theorem sumPrize_map_update (w : EntryAward) :
    ∀ (es : List CompetitionEntryRec) (e : CompetitionEntryRec),
      e ∈ es → e.id = w.entryId → (es.map (fun x => x.id)).Nodup →
      sumPrize (es.map (fun x =>
          if x.id = w.entryId then
            { x with rank := some w.rank, prize_amount := some w.prize,
                     status := w.newStatus }
          else x))
        = sumPrize es - prizeOr0 e + w.prize := by
  intro es
  induction es with
  | nil => intro e he; exact absurd he (by simp)
  | cons hd tl ih =>
    intro e he heid hnodup
    rw [List.map_cons] at hnodup
    have hnd := List.nodup_cons.mp hnodup
    rcases List.mem_cons.mp he with rfl | hmem
    · have htl : ∀ x ∈ tl, ¬ (x.id = w.entryId) := by
        intro x hx hxid
        apply hnd.1
        have hxe : x.id = e.id := by rw [hxid, heid]
        rw [← hxe]
        exact List.mem_map.mpr ⟨x, hx, rfl⟩
      rw [List.map_cons, if_pos heid, sumPrize_cons, sumPrize_cons]
      have hmap : tl.map (fun x =>
          if x.id = w.entryId then
            { x with rank := some w.rank, prize_amount := some w.prize,
                     status := w.newStatus }
          else x) = tl := by
        conv_rhs => rw [← List.map_id tl]
        apply List.map_congr_left
        intro x hx
        simp [if_neg (htl x hx)]
      rw [hmap]
      have hpz : prizeOr0 { e with
          rank := some w.rank, prize_amount := some w.prize,
          status := w.newStatus } = w.prize := rfl
      rw [hpz]
      ring
    · have hhd : ¬ (hd.id = w.entryId) := by
        intro hhdid
        apply hnd.1
        rw [hhdid, ← heid]
        exact List.mem_map.mpr ⟨e, hmem, rfl⟩
      rw [List.map_cons, if_neg hhd, sumPrize_cons, sumPrize_cons,
        ih e hmem heid hnd.2]
      ring

theorem ids_map_update (w : EntryAward) (es : List CompetitionEntryRec) :
    (es.map (fun x =>
        if x.id = w.entryId then
          { x with rank := some w.rank, prize_amount := some w.prize,
                   status := w.newStatus }
        else x)).map (fun x => x.id) = es.map (fun x => x.id) := by
  rw [List.map_map]
  apply List.map_congr_left
  intro x _
  by_cases h : x.id = w.entryId
  · simp [h]
  · simp [h]

theorem sumPrize_applyEntryAwards :
    ∀ (awards : List EntryAward) (es : List CompetitionEntryRec),
      (es.map (fun x => x.id)).Nodup →
      (awards.map (fun w => w.entryId)).Nodup →
      (∀ w ∈ awards, ∃ e ∈ es, e.id = w.entryId ∧ e.prize_amount = none) →
      sumPrize (applyEntryAwards es awards)
        = sumPrize es + (awards.map (fun w => w.prize)).sum := by
  intro awards
  induction awards with
  | nil => intro es _ _ _; simp [applyEntryAwards]
  | cons w ws ih =>
    intro es hnodup hwnodup htargets
    obtain ⟨e, he, heid, hpnone⟩ := htargets w (by simp)
    rw [List.map_cons] at hwnodup
    have hwnd := List.nodup_cons.mp hwnodup
    have hstep : applyEntryAwards es (w :: ws)
        = applyEntryAwards (es.map (fun x =>
            if x.id = w.entryId then
              { x with rank := some w.rank, prize_amount := some w.prize,
                       status := w.newStatus }
            else x)) ws := rfl
    rw [hstep]
    have htargets2 : ∀ w2 ∈ ws, ∃ e2 ∈ es.map (fun x =>
        if x.id = w.entryId then
          { x with rank := some w.rank, prize_amount := some w.prize,
                   status := w.newStatus }
        else x), e2.id = w2.entryId ∧ e2.prize_amount = none := by
      intro w2 hw2
      obtain ⟨e2, he2, he2id, he2none⟩ :=
        htargets w2 (List.mem_cons_of_mem _ hw2)
      have hne : ¬ (e2.id = w.entryId) := by
        intro hcontra
        apply hwnd.1
        rw [← hcontra, he2id]
        exact List.mem_map.mpr ⟨w2, hw2, rfl⟩
      exact ⟨e2, List.mem_map.mpr ⟨e2, he2, if_neg hne⟩, he2id, he2none⟩
    rw [ih _ (by rw [ids_map_update]; exact hnodup) hwnd.2 htargets2]
    rw [sumPrize_map_update w es e he heid hnodup]
    have : prizeOr0 e = 0 := by
      unfold prizeOr0
      rw [hpnone]
      rfl
    rw [this]
    simp only [List.map_cons, List.sum_cons]
    ring

theorem mem_snd_of_mem_enum {α : Type} {l : List α} {p : ℕ × α}
    (h : p ∈ l.enum) : p.2 ∈ l := by
  have h2 : p.2 ∈ l.enum.map Prod.snd := List.mem_map.mpr ⟨p, h, rfl⟩
  rwa [List.enum_map_snd] at h2

theorem sum_zip_scaled (T : ℚ) :
    ∀ (xs : List CompetitionEntryRec) (ps : List ℚ),
      (((xs.zip ps).map (fun ep => T * ep.2 / 100)).sum)
        = T * (ps.take xs.length).sum / 100 := by
  intro xs
  induction xs with
  | nil => intro ps; simp
  | cons x xs ih =>
    intro ps
    cases ps with
    | nil => simp
    | cons p ps =>
      simp only [List.zip_cons_cons, List.map_cons, List.sum_cons,
        List.length_cons, List.take_succ_cons, ih]
      ring

theorem sum_map_scaled (T S : ℚ) (f : CompetitionEntryRec → ℚ) :
    ∀ l : List CompetitionEntryRec,
      ((l.map (fun e => T * f e / S)).sum) = T * (l.map f).sum / S := by
  intro l
  induction l with
  | nil => simp
  | cons x xs ih =>
    simp only [List.map_cons, List.sum_cons, ih]
    ring

/-- The C2 counterexample inputs: a top-3 competition over a 300-Salt
listing with a single scored entry. -/
def topThreeExampleComp : CompetitionRec :=
  { id := "CP1", listing_id := "L5", prize_distribution := "top-3",
    prize_config := none, status := "active", winner_id := none,
    finalized_at := none }

/-- The C2 counterexample listing (Salt, parsed price 300). -/
def topThreeExampleListing : MarketListing :=
  { id := "L5", agent_id := "P5", status := "active", currency := "salt",
    price := 300, usdc_amount := none, completed_count := 0 }

/-- The C2 counterexample entries: exactly one scored entry. -/
def topThreeExampleEntries : List CompetitionEntryRec :=
  [{ id := "E1", competition_id := "CP1", agent_id := "A1", score := some 90,
     rank := none, status := "scored", prize_amount := none,
     submitted_at := "t0" }]

/-- C2 counterexample: finalizing a top-3 competition with one scored
entry and default percentages 50/30/20 distributes only 150 of the
300-unit prize — `Σ prize_amount ≠ total_prize`, far outside any
floating-point ε. -/
theorem finalize_top3_single_entry_pays_half :
    (finalizeCompetition topThreeExampleComp topThreeExampleListing
        topThreeExampleEntries "t1").map
        (fun r => (sumPrize r.postEntries, r.totalPrize))
      = .ok (150, 300) := by
  have h1 : finalizeCompetition topThreeExampleComp topThreeExampleListing
      topThreeExampleEntries "t1"
      = .ok { postEntries :=
                [{ id := "E1", competition_id := "CP1", agent_id := "A1",
                   score := some 90, rank := some 1, status := "winner",
                   prize_amount := some (300 * 50 / 100),
                   submitted_at := "t0" }],
              postComp := { topThreeExampleComp with
                status := "finalized", winner_id := some "A1",
                finalized_at := some "t1" },
              totalPrize := 300,
              distribution := [("A1", 300 * 50 / 100)] } := rfl
  rw [h1]
  simp only [Except.map, sumPrize, prizeOr0, List.map, List.sum_cons,
    List.sum_nil, Option.getD]
  norm_num

theorem awards_prize_map (T : ℚ) (xs : List CompetitionEntryRec) (ps : List ℚ) :
    (((((xs.zip ps).enum.map (fun iw =>
        ({ entryId := iw.2.1.id, agentId := iw.2.1.agent_id, rank := iw.1 + 1,
           prize := T * iw.2.2 / 100,
           newStatus := if iw.1 = 0 then "winner" else "scored" } :
              EntryAward)))).map (fun w => w.prize)).sum)
      = T * (ps.take xs.length).sum / 100 := by
  rw [List.map_map]
  have hc : ((fun w : EntryAward => w.prize) ∘ (fun iw : ℕ × (CompetitionEntryRec × ℚ) =>
      ({ entryId := iw.2.1.id, agentId := iw.2.1.agent_id, rank := iw.1 + 1,
         prize := T * iw.2.2 / 100,
         newStatus := if iw.1 = 0 then "winner" else "scored" } : EntryAward)))
      = ((fun ep : CompetitionEntryRec × ℚ => T * ep.2 / 100) ∘ Prod.snd) := rfl
  rw [hc, ← List.map_map, List.enum_map_snd, sum_zip_scaled]

theorem awards_id_map (T : ℚ) (xs : List CompetitionEntryRec) (ps : List ℚ) :
    ((((xs.zip ps).enum.map (fun iw =>
        ({ entryId := iw.2.1.id, agentId := iw.2.1.agent_id, rank := iw.1 + 1,
           prize := T * iw.2.2 / 100,
           newStatus := if iw.1 = 0 then "winner" else "scored" } :
              EntryAward)))).map (fun w => w.entryId))
      = (((xs.zip ps).map Prod.fst).map (fun e => e.id)) := by
  rw [List.map_map, List.map_map]
  have hc : ((fun w : EntryAward => w.entryId) ∘ (fun iw : ℕ × (CompetitionEntryRec × ℚ) =>
      ({ entryId := iw.2.1.id, agentId := iw.2.1.agent_id, rank := iw.1 + 1,
         prize := T * iw.2.2 / 100,
         newStatus := if iw.1 = 0 then "winner" else "scored" } : EntryAward)))
      = (((fun e : CompetitionEntryRec => e.id) ∘ Prod.fst) ∘ Prod.snd) := rfl
  rw [hc, ← List.map_map, List.enum_map_snd]

theorem awards_prize_map_prop (T S : ℚ) (l : List CompetitionEntryRec) :
    ((((l.enum.map (fun ie =>
        ({ entryId := ie.2.id, agentId := ie.2.agent_id, rank := ie.1 + 1,
           prize := T * scoreOr0 ie.2 / S,
           newStatus := if ie.1 = 0 then "winner" else "scored" } :
              EntryAward)))).map (fun w => w.prize)).sum)
      = T * (l.map scoreOr0).sum / S := by
  rw [List.map_map]
  have hc : ((fun w : EntryAward => w.prize) ∘ (fun ie : ℕ × CompetitionEntryRec =>
      ({ entryId := ie.2.id, agentId := ie.2.agent_id, rank := ie.1 + 1,
         prize := T * scoreOr0 ie.2 / S,
         newStatus := if ie.1 = 0 then "winner" else "scored" } : EntryAward)))
      = ((fun e : CompetitionEntryRec => T * scoreOr0 e / S) ∘ Prod.snd) := rfl
  rw [hc, ← List.map_map, List.enum_map_snd, sum_map_scaled]

theorem awards_id_map_prop (T S : ℚ) (l : List CompetitionEntryRec) :
    (((l.enum.map (fun ie =>
        ({ entryId := ie.2.id, agentId := ie.2.agent_id, rank := ie.1 + 1,
           prize := T * scoreOr0 ie.2 / S,
           newStatus := if ie.1 = 0 then "winner" else "scored" } :
              EntryAward)))).map (fun w => w.entryId))
      = l.map (fun e => e.id) := by
  rw [List.map_map]
  have hc : ((fun w : EntryAward => w.entryId) ∘ (fun ie : ℕ × CompetitionEntryRec =>
      ({ entryId := ie.2.id, agentId := ie.2.agent_id, rank := ie.1 + 1,
         prize := T * scoreOr0 ie.2 / S,
         newStatus := if ie.1 = 0 then "winner" else "scored" } : EntryAward)))
      = ((fun e : CompetitionEntryRec => e.id) ∘ Prod.snd) := rfl
  rw [hc, ← List.map_map, List.enum_map_snd]

/-- C2 (amended): for every successful finalize over entries carrying no
prior prizes (entry ids unique): winner-take-all distributes exactly the
total prize; top-3 distributes `total × (Σ percentages of the awarded
ranks 1..min(3,n)) / 100` — exactly the total precisely when there are at
least 3 scored entries and the (defaulted) percentages sum to 100, and
a strict shortfall otherwise; proportional (with a non-zero qualified
score sum) distributes exactly the total.  The code never validates that
the configured top-3 percentages sum to 100. -/
theorem finalize_prize_sum_laws
    (comp : CompetitionRec) (listing : MarketListing)
    (entries : List CompetitionEntryRec) (now : String) (res : FinalizeResult)
    (hids : (entries.map (fun e => e.id)).Nodup)
    (hnoprize : ∀ e ∈ entries, e.prize_amount = none)
    (hfin : finalizeCompetition comp listing entries now = .ok res) :
    (comp.prize_distribution = "winner-take-all" →
        sumPrize res.postEntries = res.totalPrize)
      ∧ (comp.prize_distribution = "top-3" →
        sumPrize res.postEntries
          = res.totalPrize
              * ((top3Percentages comp).take
                  (min 3 (scoredSorted entries).length)).sum / 100)
      ∧ (comp.prize_distribution = "top-3" →
        3 ≤ (scoredSorted entries).length →
        (top3Percentages comp).sum = 100 →
        sumPrize res.postEntries = res.totalPrize)
      ∧ (comp.prize_distribution = "proportional" →
        (((scoredSorted entries).filter (fun e =>
            jsOr ((comp.prize_config.map (fun c => c.minScore)).join) 0
              ≤ scoreOr0 e)).map scoreOr0).sum ≠ 0 →
        sumPrize res.postEntries = res.totalPrize) := by
  simp only [finalizeCompetition] at hfin
  have hstat : ¬ comp.status = "finalized" := by
    intro h
    rw [if_pos h] at hfin
    cases hfin
  rw [if_neg hstat] at hfin
  cases hs : scoredSorted entries with
  | nil =>
    rw [hs] at hfin
    exact absurd hfin (by simp)
  | cons e1 srest =>
  rw [hs] at hfin
  simp only [List.isEmpty_cons, Bool.false_eq_true, if_false] at hfin
  cases hA : finalizeAwards comp
      (if listing.currency = "usdc" then listing.usdc_amount.getD 0
       else listing.price) (e1 :: srest) with
  | error e =>
    rw [hA] at hfin
    cases hfin
  | ok awards =>
  rw [hA] at hfin
  injection hfin with hres
  subst hres
  simp only
  set T := (if listing.currency = "usdc" then listing.usdc_amount.getD 0
    else listing.price) with hT
  have hzero : sumPrize entries = 0 := sumPrize_eq_zero hnoprize
  have hsum_of : ∀ (ws : List EntryAward), awards = ws →
      ((ws.map (fun w => w.entryId)).Nodup) →
      (∀ w ∈ ws, ∃ e ∈ entries, e.id = w.entryId ∧ e.prize_amount = none) →
      sumPrize (applyEntryAwards entries awards)
        = (ws.map (fun w => w.prize)).sum := by
    intro ws hws hnd htg
    rw [hws, sumPrize_applyEntryAwards ws entries hids hnd htg, hzero,
      zero_add]
  have hmem_entries : ∀ x ∈ e1 :: srest, x ∈ entries := by
    intro x hx
    exact mem_scoredSorted (hs ▸ hx)
  have hids_scored : ((e1 :: srest).map (fun e => e.id)).Nodup := by
    rw [← hs]
    exact scoredSorted_ids_nodup hids
  refine ⟨?_, ?_, ?_, ?_⟩
  case _ =>
    intro hdist
    unfold finalizeAwards at hA
    rw [if_pos hdist] at hA
    simp only [List.head?_cons] at hA
    injection hA with hws
    rw [hsum_of _ hws.symm (by simp)
      (fun w hw => by
        simp only [List.mem_singleton] at hw
        exact ⟨e1, hmem_entries e1 (by simp), by rw [hw],
          hnoprize e1 (hmem_entries e1 (by simp))⟩)]
    simp
  case _ =>
    intro hdist
    unfold finalizeAwards at hA
    rw [if_neg (by rw [hdist]; decide), if_pos hdist] at hA
    injection hA with hws
    have htake_le : ((e1 :: srest).take 3).length ≤ (top3Percentages comp).length := by
      rw [List.length_take]
      exact le_trans (min_le_left _ _) (by rw [show (top3Percentages comp).length = 3 from rfl])
    rw [hsum_of _ hws.symm ?_ ?_]
    · rw [awards_prize_map, List.length_take]
    · rw [awards_id_map, List.map_fst_zip _ _ htake_le]
      exact hids_scored.sublist ((List.take_sublist 3 (e1 :: srest)).map _)
    · intro w hw
      rcases List.mem_map.mp hw with ⟨iw, hiw, rfl⟩
      have h2 : iw.2 ∈ ((e1 :: srest).take 3).zip (top3Percentages comp) :=
        mem_snd_of_mem_enum hiw
      have h3 : iw.2.1 ∈ (e1 :: srest).take 3 := by
        have := List.of_mem_zip (show (iw.2.1, iw.2.2) ∈ _ from by simpa using h2)
        exact this.1
      have h4 : iw.2.1 ∈ entries :=
        hmem_entries iw.2.1 (List.take_subset _ _ h3)
      exact ⟨iw.2.1, h4, rfl, hnoprize _ h4⟩
  case _ =>
    intro hdist h3 h100
    unfold finalizeAwards at hA
    rw [if_neg (by rw [hdist]; decide), if_pos hdist] at hA
    injection hA with hws
    have htake_le : ((e1 :: srest).take 3).length ≤ (top3Percentages comp).length := by
      rw [List.length_take]
      exact le_trans (min_le_left _ _) (by rw [show (top3Percentages comp).length = 3 from rfl])
    rw [hsum_of _ hws.symm ?_ ?_]
    · rw [awards_prize_map, List.length_take, min_eq_left h3,
        List.take_of_length_le (le_of_eq (show (top3Percentages comp).length = 3 from rfl)),
        h100]
      norm_num
    · rw [awards_id_map, List.map_fst_zip _ _ htake_le]
      exact hids_scored.sublist ((List.take_sublist 3 (e1 :: srest)).map _)
    · intro w hw
      rcases List.mem_map.mp hw with ⟨iw, hiw, rfl⟩
      have h2 : iw.2 ∈ ((e1 :: srest).take 3).zip (top3Percentages comp) :=
        mem_snd_of_mem_enum hiw
      have h3b : iw.2.1 ∈ (e1 :: srest).take 3 := by
        have := List.of_mem_zip (show (iw.2.1, iw.2.2) ∈ _ from by simpa using h2)
        exact this.1
      have h4 : iw.2.1 ∈ entries :=
        hmem_entries iw.2.1 (List.take_subset _ _ h3b)
      exact ⟨iw.2.1, h4, rfl, hnoprize _ h4⟩
  case _ =>
    intro hdist hS
    unfold finalizeAwards at hA
    rw [if_neg (by rw [hdist]; decide), if_neg (by rw [hdist]; decide),
      if_pos hdist] at hA
    simp only [] at hA
    split at hA
    · cases hA
    · injection hA with hws
      rw [hsum_of _ hws.symm ?_ ?_]
      · rw [awards_prize_map_prop]
        exact mul_div_cancel_right₀ _ hS
      · rw [awards_id_map_prop]
        exact hids_scored.sublist ((List.filter_sublist _).map _)
      · intro w hw
        rcases List.mem_map.mp hw with ⟨ie, hie, rfl⟩
        have h2 := mem_snd_of_mem_enum hie
        have h4 : ie.2 ∈ entries :=
          hmem_entries ie.2 (List.mem_of_mem_filter h2)
        exact ⟨ie.2, h4, rfl, hnoprize _ h4⟩

/-- A winner-take-all competition instance for the prize-sum law. -/
def wtaExampleComp : CompetitionRec :=
  { id := "CP2", listing_id := "L6", prize_distribution := "winner-take-all",
    prize_config := none, status := "active", winner_id := none,
    finalized_at := none }

/-- The listing of the winner-take-all instance (Salt, parsed price 100). -/
def wtaExampleListing : MarketListing :=
  { id := "L6", agent_id := "P6", status := "active", currency := "salt",
    price := 100, usdc_amount := none, completed_count := 0 }

/-- Two scored entries for the winner-take-all instance. -/
def wtaExampleEntries : List CompetitionEntryRec :=
  [{ id := "E2", competition_id := "CP2", agent_id := "A2", score := some 80,
     rank := none, status := "scored", prize_amount := none,
     submitted_at := "t0" },
   { id := "E3", competition_id := "CP2", agent_id := "A3", score := some 60,
     rank := none, status := "scored", prize_amount := none,
     submitted_at := "t1" }]

theorem finalize_prize_sum_laws_witness :
    ((wtaExampleEntries.map (fun e => e.id)).Nodup)
      ∧ (∀ e ∈ wtaExampleEntries, e.prize_amount = none)
      ∧ ∃ res,
          finalizeCompetition wtaExampleComp wtaExampleListing
              wtaExampleEntries "t2" = .ok res
            ∧ (wtaExampleComp.prize_distribution = "winner-take-all" →
                sumPrize res.postEntries = res.totalPrize) :=
  ⟨by decide, by decide,
   ⟨_, rfl,
    (finalize_prize_sum_laws wtaExampleComp wtaExampleListing
      wtaExampleEntries "t2" _ (by decide) (by decide) rfl).1⟩⟩

/-! ## C9 — impact monotonicity -/

theorem bfs_visited_mono (nodes : List GraphNode) :
    ∀ (queue : List (String × Nat)) (visited direct trans : List String)
      (x : String), x ∈ visited →
      x ∈ (bfsLoop nodes queue visited direct trans).1 := by
  intro queue visited direct trans
  induction queue, visited, direct, trans using bfsLoop.induct nodes with
  | case1 v d t => intro x hx; rw [bfsLoop]; exact hx
  | case2 v d t id depth rest fresh ih =>
    intro x hx
    rw [bfsLoop]
    exact ih x (List.mem_append_left _ hx)

theorem bfs_visited_sound (nodes : List GraphNode) (P : String → Prop)
    (hP : ∀ a b, P a → b ∈ dependents nodes a → P b) :
    ∀ (queue : List (String × Nat)) (visited direct trans : List String),
      (∀ x ∈ visited, P x) → (∀ p ∈ queue, P (p : String × Nat).1) →
      ∀ x ∈ (bfsLoop nodes queue visited direct trans).1, P x := by
  intro queue visited direct trans
  induction queue, visited, direct, trans using bfsLoop.induct nodes with
  | case1 v d t =>
    intro hv _ x hx
    rw [bfsLoop] at hx
    exact hv x hx
  | case2 v d t id depth rest fresh ih =>
    intro hv hq x hx
    rw [bfsLoop] at hx
    have hid : P id := hq (id, depth) (by simp)
    have hfreshP : ∀ y ∈ fresh, P y := by
      intro y hy
      have hdep : y ∈ dependents nodes id := List.mem_of_mem_filter hy
      exact hP id y hid hdep
    refine ih ?_ ?_ x hx
    · intro y hy
      rcases List.mem_append.mp hy with h | h
      · exact hv y h
      · exact hfreshP y h
    · intro p hp
      rcases List.mem_append.mp hp with h | h
      · exact hq p (List.mem_cons_of_mem _ h)
      · rcases List.mem_map.mp h with ⟨y, hy, rfl⟩
        exact hfreshP y hy

theorem bfs_visited_closed (nodes : List GraphNode) :
    ∀ (queue : List (String × Nat)) (visited direct trans : List String),
      (∀ a ∈ visited, (∀ b ∈ dependents nodes a, b ∈ visited)
        ∨ ∃ dep, (a, dep) ∈ queue) →
      ∀ a ∈ (bfsLoop nodes queue visited direct trans).1,
        ∀ b ∈ dependents nodes a, b ∈ (bfsLoop nodes queue visited direct trans).1 := by
  intro queue visited direct trans
  induction queue, visited, direct, trans using bfsLoop.induct nodes with
  | case1 v d t =>
    intro hinv a ha b hb
    rw [bfsLoop] at ha ⊢
    rcases hinv a ha with h | ⟨dep, hdep⟩
    · exact h b hb
    · exact absurd hdep (by simp)
  | case2 v d t id depth rest fresh ih =>
    intro hinv a ha b hb
    rw [bfsLoop] at ha ⊢
    refine ih ?_ a ha b hb
    intro a2 ha2
    rcases List.mem_append.mp ha2 with h2 | h2
    · by_cases haid : a2 = id
      · left
        intro b2 hb2
        subst haid
        by_cases hbv : b2 ∈ v
        · exact List.mem_append_left _ hbv
        · refine List.mem_append_right _ ?_
          refine List.mem_filter.mpr ⟨hb2, ?_⟩
          simpa using hbv
      · rcases hinv a2 h2 with h3 | ⟨dep, hdep⟩
        · left
          intro b2 hb2
          exact List.mem_append_left _ (h3 b2 hb2)
        · rcases List.mem_cons.mp hdep with heq | hmem
          · exact absurd (congrArg Prod.fst heq) haid
          · exact Or.inr ⟨dep, List.mem_append_left _ hmem⟩
    · right
      exact ⟨depth + 1, List.mem_append_right _
        (List.mem_map.mpr ⟨a2, h2, rfl⟩)⟩

theorem bfs_count (nodes : List GraphNode) :
    ∀ (queue : List (String × Nat)) (visited direct trans : List String),
      visited.Nodup →
      (bfsLoop nodes queue visited direct trans).1.Nodup
        ∧ (bfsLoop nodes queue visited direct trans).1.length
            + direct.length + trans.length
          = visited.length + (bfsLoop nodes queue visited direct trans).2.1.length
            + (bfsLoop nodes queue visited direct trans).2.2.length := by
  intro queue visited direct trans
  induction queue, visited, direct, trans using bfsLoop.induct nodes with
  | case1 v d t =>
    intro hv
    rw [bfsLoop]
    exact ⟨hv, rfl⟩
  | case2 v d t id depth rest fresh ih =>
    intro hv
    have hfresh_nodup : fresh.Nodup := (dependents_nodup nodes id).filter _
    have hdisj : ∀ x ∈ v, x ∉ fresh := by
      intro x hx hxf
      have h2 := List.mem_filter.mp hxf
      simp only [decide_not, Bool.not_eq_true', decide_eq_false_iff_not] at h2
      exact h2.2 hx
    have hvf : (v ++ fresh).Nodup := by
      rw [List.nodup_append]
      exact ⟨hv, hfresh_nodup, fun x hx hxf => hdisj x hx hxf⟩
    have hih := ih hvf
    have hfresh_eq : fresh
        = List.filter (fun x => decide (x ∉ v)) (dependents nodes id) := rfl
    rw [bfsLoop]
    rw [← hfresh_eq]
    by_cases hd : depth = 0
    · simp only [dif_pos hd, if_pos hd] at hih ⊢
      refine ⟨hih.1, ?_⟩
      have hlen := hih.2
      simp only [List.length_append] at hlen ⊢
      omega
    · simp only [dif_neg hd, if_neg hd] at hih ⊢
      refine ⟨hih.1, ?_⟩
      have hlen := hih.2
      simp only [List.length_append] at hlen ⊢
      omega

/-- Reachability from the seed set along the reverse dependency map — the
set the source's BFS visits. -/
inductive ReachesFrom (nodes : List GraphNode) (seeds : List String) :
    String → Prop where
  | seed {x : String} : x ∈ seeds → ReachesFrom nodes seeds x
  | step {a b : String} : ReachesFrom nodes seeds a →
      b ∈ dependents nodes a → ReachesFrom nodes seeds b

theorem reachesFrom_mono {nodes : List GraphNode} {seeds1 seeds2 : List String}
    {x : String} (hsub : ∀ y, y ∈ seeds1 → y ∈ seeds2)
    (h : ReachesFrom nodes seeds1 x) : ReachesFrom nodes seeds2 x := by
  induction h with
  | seed hx => exact .seed (hsub _ hx)
  | step _ hdep ih => exact .step ih hdep

/-- The visited set of the source's BFS from a seed list. -/
def bfsVisited (nodes : List GraphNode) (seeds : List String) : List String :=
  (bfsLoop nodes (seeds.map (fun i => (i, 0))) (setOf seeds) [] []).1

theorem mem_bfsVisited_iff (nodes : List GraphNode) (seeds : List String)
    (x : String) : x ∈ bfsVisited nodes seeds ↔ ReachesFrom nodes seeds x := by
  constructor
  · intro hx
    refine bfs_visited_sound nodes (ReachesFrom nodes seeds)
      (fun a b ha hd => .step ha hd) _ _ _ _ ?_ ?_ x hx
    · intro y hy
      exact .seed (mem_setOf.mp hy)
    · intro p hp
      rcases List.mem_map.mp hp with ⟨i, hi, rfl⟩
      exact .seed hi
  · intro h
    induction h with
    | seed hx =>
      exact bfs_visited_mono nodes _ _ _ _ _ (mem_setOf.mpr hx)
    | step ha hdep ih =>
      refine bfs_visited_closed nodes _ _ _ _ ?_ _ ih _ hdep
      intro a ha2
      exact Or.inr ⟨0, List.mem_map.mpr ⟨a, mem_setOf.mp ha2, rfl⟩⟩

theorem visited_nodup (nodes : List GraphNode) (seeds : List String) :
    (bfsVisited nodes seeds).Nodup :=
  (bfs_count nodes (seeds.map (fun i => (i, 0))) (setOf seeds) [] []
    (nodup_setOf seeds)).1

theorem total_eq_visited_length {g : BountyGraph} {seeds : List String}
    (h : seeds.Nodup) :
    (calculateChangeImpact g seeds).total_affected_count
      = (bfsVisited g.nodes seeds).length := by
  have hc := (bfs_count g.nodes (seeds.map (fun i => (i, 0)))
    (setOf seeds) [] [] (nodup_setOf seeds)).2
  have hlenset : (setOf seeds).length = seeds.length := by
    rw [setOf_eq_self h]
  simp only [calculateChangeImpact, bfsVisited] at hc ⊢
  simp only [List.length_nil, List.length_append] at hc ⊢
  omega

/-- C9: (1) for every graph and seed sets `S₁`, `S₂` with union `S₁₂`
(as duplicate-free lists), the total affected count of the union run is
at least the maximum of the two individual runs; (2) the risk level is
exactly `riskOf` applied to the total affected count; (3) `riskOf` is
monotone in the total affected count (`low` for ≤ 2, `medium` for ≤ 5,
`high` otherwise). -/
theorem impact_monotonicity :
    (∀ (g : BountyGraph) (S1 S2 S12 : List String),
        S1.Nodup → S2.Nodup → S12.Nodup →
        (∀ x, x ∈ S12 ↔ x ∈ S1 ∨ x ∈ S2) →
        max (calculateChangeImpact g S1).total_affected_count
            (calculateChangeImpact g S2).total_affected_count
          ≤ (calculateChangeImpact g S12).total_affected_count)
      ∧ (∀ (g : BountyGraph) (S : List String),
          (calculateChangeImpact g S).risk_level
            = riskOf (calculateChangeImpact g S).total_affected_count)
      ∧ (∀ m n : Nat, m ≤ n → riskOrd (riskOf m) ≤ riskOrd (riskOf n)) := by
  refine ⟨?_, ?_, ?_⟩
  · intro g S1 S2 S12 h1 h2 h12 hiff
    have key : ∀ (Sa : List String), Sa.Nodup → (∀ x, x ∈ Sa → x ∈ S12) →
        (calculateChangeImpact g Sa).total_affected_count
          ≤ (calculateChangeImpact g S12).total_affected_count := by
      intro Sa ha hsub
      rw [total_eq_visited_length ha, total_eq_visited_length h12]
      have hsubset : ∀ x ∈ bfsVisited g.nodes Sa, x ∈ bfsVisited g.nodes S12 := by
        intro x hx
        rw [mem_bfsVisited_iff] at hx ⊢
        exact reachesFrom_mono hsub hx
      calc (bfsVisited g.nodes Sa).length
          = (bfsVisited g.nodes Sa).toFinset.card :=
            (List.toFinset_card_of_nodup (visited_nodup g.nodes Sa)).symm
        _ ≤ (bfsVisited g.nodes S12).toFinset.card :=
            Finset.card_le_card (fun x hx =>
              List.mem_toFinset.mpr (hsubset x (List.mem_toFinset.mp hx)))
        _ ≤ (bfsVisited g.nodes S12).length := List.toFinset_card_le _
    exact max_le (key S1 h1 (fun x hx => (hiff x).mpr (Or.inl hx)))
      (key S2 h2 (fun x hx => (hiff x).mpr (Or.inr hx)))
  · intro g S
    rfl
  · intro m n hmn
    unfold riskOf riskOrd
    split_ifs <;> simp <;> omega

/-- The empty graph, used to instantiate the monotonicity law. -/
def emptyGraph : BountyGraph := { nodes := [] }

theorem impact_monotonicity_witness :
    (["x"] : List String).Nodup ∧ ([] : List String).Nodup
      ∧ (∀ x : String,
          x ∈ (["x"] : List String)
            ↔ x ∈ (["x"] : List String) ∨ x ∈ ([] : List String))
      ∧ max (calculateChangeImpact emptyGraph ["x"]).total_affected_count
            (calculateChangeImpact emptyGraph []).total_affected_count
          ≤ (calculateChangeImpact emptyGraph ["x"]).total_affected_count :=
  ⟨by simp, by simp, by simp,
   impact_monotonicity.1 emptyGraph ["x"] [] ["x"] (by simp) (by simp)
     (by simp) (by simp)⟩

end Saltdig
